import Mathlib

/-!
# exploreapollo-audio: slice building, trim computation and command assembly

A shallow embedding of `src/audio/audio.go` (package `audio`).

Modelling conventions

* Go `int` is the 64-bit signed integer of the supported platforms.  Values are modelled
  as `Int`; every sum and difference the code computes is reduced by `wrap64` to the
  64-bit range, and `IsInt64` says of an input that it is in that range.
* `float64(ms) / 1000.0` followed by `strconv.FormatFloat(_, 'f', 4, 64)` is modelled by
  `formatSeconds` in integer arithmetic: the conversion to float64 and the division each
  round to 53 significant bits, to nearest and ties to even, and the rendering rounds the
  resulting binary fraction to four decimals, again ties to even.  `exactSeconds` is the
  decimal rendering of `ms / 1000` the specification speaks of; the two agree for
  magnitudes below 549755813888003 ms (`RendersExactly`) and differ at that value.
* The spans a trim instruction keeps are read from the argument strings themselves
  (`parseTicks`, `spanOfArgs`), in ten-thousandths of a second, the way `sox` reads
  `trim <offset> [<duration>]`: from the start of the stream plus the offset, for the
  duration when there is one, else to the end of the stream.
* A Go `map[int]AudioSegment` is an association list with one entry per key; assignment
  replaces the entry of an existing key and otherwise appends one.  Go leaves the
  iteration order of a map unspecified; `range` over the map is modelled as a traversal of
  the list, and every statement below is quantified over all such lists.
* `os.TempDir()` depends on the environment and is a parameter `tmp` of the model.
* Indexing outside a slice panics; functions that index return `Option`, `none` being the
  panic.
* The data base rows are the input of the row loop of `GetRequestSlices`; a row whose
  `Scan` fails is `none`.
* Logging is modelled only where a statement is about it (the unsupported format warning).
-/

namespace Audio

/-! ## Library functions used by the package -/

/-- Go `int` arithmetic on a 64-bit platform: the result of an addition or subtraction,
reduced to the range of a signed 64-bit integer. -/
def wrap64 (x : Int) : Int :=
  (x + 9223372036854775808) % 18446744073709551616 - 9223372036854775808

/-- The values of a Go `int` on a 64-bit platform. -/
def IsInt64 (x : Int) : Prop := -9223372036854775808 ≤ x ∧ x < 9223372036854775808

/-- The quotient `n / d` rounded to the nearest natural number, ties to even. -/
def roundHalfEven (n d : Nat) : Nat :=
  let q := n / d
  let r := n % d
  if 2 * r < d then q else if d < 2 * r then q + 1 else if q % 2 = 0 then q else q + 1

/-- Binary logarithm, rounded down, by halving at most `fuel` times. -/
def log2Fuel : Nat → Nat → Nat
  | 0, _ => 0
  | fuel + 1, n => if n < 2 then 0 else log2Fuel fuel (n / 2) + 1

/-- Binary logarithm of a natural number, rounded down (0 for 0). -/
def floorLog2 (n : Nat) : Nat := log2Fuel n n

/-- The quotient `n / d` rounded to 53 significant bits, ties to even, as float64 rounds:
for a quotient of at least `2 ^ 52` the result is the multiple of `2 ^ t` nearest to it,
`t` being the number of bits in excess of 53; a smaller quotient is rounded to a natural
number. -/
def roundTo53 (n d : Nat) : Nat :=
  let t := floorLog2 (n / d) - 52
  roundHalfEven n (d * 2 ^ t) * 2 ^ t

/-- Decimal digits of a number, least significant first. -/
def digitsRev : Nat → Nat → List Char
  | 0, _ => []
  | fuel + 1, n =>
    if n < 10 then [Nat.digitChar n] else Nat.digitChar (n % 10) :: digitsRev fuel (n / 10)

/-- Decimal digits of a natural number. -/
def decimal (n : Nat) : List Char := (digitsRev (n + 1) n).reverse

/-- Four decimal digits of a number below ten thousand, with leading zeros. -/
def digits4 (n : Nat) : List Char :=
  [Nat.digitChar (n / 1000 % 10), Nat.digitChar (n / 100 % 10), Nat.digitChar (n / 10 % 10),
    Nat.digitChar (n % 10)]

/-- A number of ten-thousandths written as a decimal with four fractional digits. -/
def renderTicks (neg : Bool) (ticks : Nat) : String :=
  String.mk ((if neg then ['-'] else []) ++ decimal (ticks / 10000) ++ ['.'] ++
    digits4 (ticks % 10000))

/-- The magnitude of `float64(a) / 1000.0`, rounded to four decimals as `FormatFloat` with
format 'f' and precision 4 rounds the exact value of the float64, in ten-thousandths:
`roundTo53 a 1` is the conversion to float64, an integer; multiplied by `2 ^ 62` and
divided by 1000 to 53 bits it is `2 ^ 62` times the float64 quotient (64-bit magnitudes
give quotients between `2 ^ (-10)` and `2 ^ 54`, so that the scaled quotient is at least
`2 ^ 52`); the last rounding is that of the decimal conversion. -/
def float64Ticks (a : Nat) : Nat :=
  roundHalfEven (roundTo53 (roundTo53 a 1 * 2 ^ 62) 1000 * 10000) (2 ^ 62)

/-- Model of `strconv.FormatFloat(float64(ms) / 1000.0, 'f', 4, 64)` for a 64-bit `ms`:
the float64 quotient rendered with four fractional digits. -/
def formatSeconds (ms : Int) : String :=
  renderTicks (decide (ms < 0)) (float64Ticks ms.natAbs)

/-- Split a path at every slash. -/
def splitSlash : List Char → List (List Char)
  | [] => [[]]
  | c :: cs =>
    if c = '/' then [] :: splitSlash cs
    else
      match splitSlash cs with
      | [] => [[c]]
      | h :: t => (c :: h) :: t

/-- One element of `path.Clean`: the stack holds the elements kept so far, last first. -/
def cleanStep (rooted : Bool) (stack : List (List Char)) (c : List Char) : List (List Char) :=
  if c = [] ∨ c = ['.'] then stack
  else if c = ['.', '.'] then
    match stack with
    | [] => if rooted then [] else [c]
    | top :: rest => if top = ['.', '.'] then c :: stack else rest
  else c :: stack

/-- Model of Go `path.Clean`. -/
def pathClean (p : String) : String :=
  if p = "" then "."
  else
    let rooted : Bool := decide (p.data.head? = some '/')
    let out := (splitSlash p.data).foldl (cleanStep rooted) []
    let r := (if rooted then "/" else "") ++ "/".intercalate (out.reverse.map String.mk)
    if r = "" then "." else r

/-- Model of Go `path.Join`: empty elements are ignored and the result is cleaned. -/
def pathJoin (elems : List String) : String :=
  let ne := elems.filter (fun e => e ≠ "")
  if ne = [] then "" else pathClean ("/".intercalate ne)

/-- Model of `strings.Join`. -/
def stringsJoin (elems : List String) (sep : String) : String :=
  sep.intercalate elems

/-! ## Package variables and types -/

def workingDir (tmp : String) : String := pathJoin [tmp, "apollo-audio"]

def clipDir (tmp : String) : String := pathJoin [workingDir tmp, "clips"]

def AAC : String := "aac"

def M4A : String := "m4a"

def OGG : String := "ogg"

/-- Container for the request variables. -/
structure RequestVars where
  Mission : Int
  Channels : List String
  Format : String
  Start : Int
  Duration : Int
deriving DecidableEq, Repr

structure AudioSegment where
  start : Int
  end_ : Int
  url : String
  localPath : String
  channel_id : Int
deriving DecidableEq, Repr

/-- Local paths to audio files for all channels belonging to a particular time slice. -/
structure TimeSlice where
  start : Int
  end_ : Int
  segments : List (Int × AudioSegment)
deriving DecidableEq, Repr

def NewTimeSlice (start end_ : Int) : TimeSlice :=
  { start := start, end_ := end_, segments := [] }

/-- Map assignment `m[k] = v`. -/
def mapSet (m : List (Int × AudioSegment)) (k : Int) (v : AudioSegment) :
    List (Int × AudioSegment) :=
  match m with
  | [] => [(k, v)]
  | e :: rest => if e.1 = k then (k, v) :: rest else e :: mapSet rest k v

/-! ## GetRequestSlices: the row loop -/

/-- One row of the query `SELECT met_start, met_end, url, channel_id`. -/
structure Row where
  met_start : Int
  met_end : Int
  url : String
  channel_id : Int
deriving DecidableEq, Repr

/-- The variables the row loop updates. -/
structure ScanState where
  slices : List TimeSlice
  lastStart : Int
deriving DecidableEq, Repr

/-- The inner loop "Add to proper slice": the segment is stored in the first slice whose
bounds equal its own, and in none when no slice matches. -/
def addToSlice (slices : List TimeSlice) (segment : AudioSegment) : List TimeSlice :=
  match slices with
  | [] => []
  | a :: rest =>
    if segment.start = a.start ∧ segment.end_ = a.end_ then
      { a with segments := mapSet a.segments segment.channel_id segment } :: rest
    else a :: addToSlice rest segment

/-- The local name given to a segment. -/
def localName (tmp : String) (rv : RequestVars) (channel_id start : Int) : String :=
  pathJoin [clipDir tmp,
    "mission_" ++ toString rv.Mission ++ "_channel_" ++ toString channel_id ++ "_" ++
      toString start ++ ".wav"]

/-- The segment built from a scanned row, local name set. -/
def rowSegment (tmp : String) (rv : RequestVars) (r : Row) : AudioSegment :=
  { start := r.met_start, end_ := r.met_end, url := r.url,
    localPath := localName tmp rv r.channel_id r.met_start, channel_id := r.channel_id }

/-- One iteration of the row loop. -/
def scanRow (tmp : String) (rv : RequestVars) (st : ScanState) (row : Option Row) :
    ScanState :=
  match row with
  | none => st
  | some r =>
    let opened : ScanState :=
      if r.met_start > st.lastStart then
        { slices := st.slices ++ [NewTimeSlice r.met_start r.met_end],
          lastStart := r.met_start }
      else st
    { opened with slices := addToSlice opened.slices (rowSegment tmp rv r) }

/-- The row loop of `GetRequestSlices` on the scanned rows of the query. -/
def GetRequestSlices (tmp : String) (rv : RequestVars) (rows : List (Option Row)) :
    List TimeSlice :=
  (rows.foldl (scanRow tmp rv) { slices := [], lastStart := -1 }).slices

/-! ## Trim arguments -/

def getSoxTrimArgs (i : Int) (rv : RequestVars) (slices : List TimeSlice) :
    Option (List String) :=
  if i < 0 then none
  else
    match slices[i.toNat]? with
    | none => none
    | some slice =>
      let first : Bool := decide (i = 0 ∧ rv.Start > slice.start)
      let trimOffset : Int := if first then wrap64 (rv.Start - slice.start) else 0
      let args : List String := if first then ["trim", formatSeconds trimOffset] else []
      let reqEnd := wrap64 (rv.Start + rv.Duration)
      if i = (slices.length : Int) - 1 ∧ slice.end_ > reqEnd then
        let duration : Int :=
          if rv.Start > slice.start then wrap64 (reqEnd - rv.Start)
          else wrap64 (reqEnd - slice.start)
        let durStr := formatSeconds duration
        if trimOffset = 0 then some (args ++ ["trim", "0", durStr])
        else some (args ++ [durStr])
      else some args

def soxBulkTrimArgs (rv : RequestVars) (slices : List TimeSlice) : Option (List String) :=
  match slices[0]? with
  | none => none
  | some slice =>
    let trimOffset : Int :=
      if rv.Start > slice.start then wrap64 (rv.Start - slice.start) else 0
    let offStr := formatSeconds trimOffset
    let durStr := formatSeconds rv.Duration
    some ["trim", offStr, durStr]

/-! ## Assembly: the commands built by the two modes

`DownloadAllAudio`, `exec.LookPath` and the process plumbing act on the file system and on
processes; the model keeps the argument lists the two functions build. -/

/-- The loop "Gather paths" over the segments of a slice. -/
def segmentPaths (slice : TimeSlice) : List String :=
  slice.segments.map (fun e => e.2.localPath)

def unsupportedWarning : String := "unsupported output format requested. break some rools."

/-- The transcoder arguments chosen in `DownloadAndStream`, with the lines logged by the
chosen branch. -/
def streamFfmpegArgs (rv : RequestVars) : List String × List String :=
  if rv.Format = AAC ∨ rv.Format = M4A then
    (["-i", "-", "-c:a", "libfdk_aac", "-b:a", "256k", "-f", M4A, "pipe:"], [])
  else if rv.Format = OGG then
    (["-i", "-", "-c:a", "libvorbis", "-qscale:a", "6", "-f", OGG, "pipe:"], [])
  else
    (["-i", "-", "-f", "mp3", "-ab", "256k", "pipe:"], [unsupportedWarning])

/-- The pair of commands built for one slice in streaming mode. -/
structure StreamCommand where
  soxArgs : List String
  ffmpegArgs : List String
  logged : List String
deriving DecidableEq, Repr

/-- The body of the loop of `DownloadAndStream` for slice `i`. -/
def streamSlice (i : Int) (slice : TimeSlice) (rv : RequestVars) (slices : List TimeSlice) :
    Option StreamCommand :=
  let paths := segmentPaths slice
  let soxArgs := ["-t", "wav"] ++ (if paths.length > 1 then ["-m"] else []) ++ paths ++ ["-p"]
  match getSoxTrimArgs i rv slices with
  | none => none
  | some trim =>
    some { soxArgs := soxArgs ++ trim, ffmpegArgs := (streamFfmpegArgs rv).1,
           logged := (streamFfmpegArgs rv).2 }

/-- The loop `for i, slice := range slices`, from index `i` on. -/
def streamLoop (rv : RequestVars) (slices : List TimeSlice) :
    Nat → List TimeSlice → Option (List StreamCommand)
  | _, [] => some []
  | i, slice :: rest =>
    match streamSlice (i : Int) slice rv slices with
    | none => none
    | some c =>
      match streamLoop rv slices (i + 1) rest with
      | none => none
      | some cs => some (c :: cs)

def DownloadAndStream (slices : List TimeSlice) (rv : RequestVars) :
    Option (List StreamCommand) :=
  streamLoop rv slices 0 slices

/-- The output file name of file mode (lines 222 and 223). -/
def encodeOutFile (tmp : String) (rv : RequestVars) : String :=
  pathJoin [clipDir tmp,
    "channels_" ++ stringsJoin rv.Channels "." ++ "_" ++ toString rv.Start ++ "_" ++
      toString rv.Duration ++ ".m4a"]

/-- The shell word a slice contributes to the `sox` command of file mode. -/
def encodeSliceCmd (slice : TimeSlice) : String :=
  let paths := segmentPaths slice
  if paths.length = 1 then paths.headD ""
  else "\"| " ++ "sox" ++ " -m " ++ stringsJoin paths " " ++ " -p\""

/-- The commands built by file mode and the path it returns. -/
structure EncodeResult where
  soxCmd : String
  ffmpegArgs : List String
  outFile : String
deriving DecidableEq, Repr

def DownloadAndEncode (tmp : String) (slices : List TimeSlice) (rv : RequestVars) :
    Option EncodeResult :=
  let outFile := encodeOutFile tmp rv
  let soxArgs := ["sox"] ++ slices.map encodeSliceCmd ++ ["-p"]
  match soxBulkTrimArgs rv slices with
  | none => none
  | some trim =>
    let ffmpegArgs :=
      ["-i", "-", "-strict", "-2", "-c:a", "aac", "-b:a", "96k", "-f", "mp4", outFile] ++ ["-y"]
    some { soxCmd := stringsJoin (soxArgs ++ trim) " ", ffmpegArgs := ffmpegArgs,
           outFile := outFile }

/-! ## Predicates and auxiliary definitions of the statements -/

/-- The command the streaming loop builds for a slice, given its trim arguments. -/
def streamCommandOf (slice : TimeSlice) (rv : RequestVars) (trim : List String) :
    StreamCommand :=
  { soxArgs :=
      ["-t", "wav"] ++ (if (segmentPaths slice).length > 1 then ["-m"] else []) ++
        segmentPaths slice ++ ["-p"] ++ trim,
    ffmpegArgs := (streamFfmpegArgs rv).1,
    logged := (streamFfmpegArgs rv).2 }

/-- The bounds of a slice. -/
def TimeSlice.bounds (s : TimeSlice) : Int × Int := (s.start, s.end_)

/-- The bounds of a row. -/
def Row.bounds (r : Row) : Int × Int := (r.met_start, r.met_end)

/-- A slice after `segments[channel_id] = segment`. -/
def TimeSlice.store (a : TimeSlice) (segment : AudioSegment) : TimeSlice :=
  { a with segments := mapSet a.segments segment.channel_id segment }

/-- What holds of the loop variables after any number of rows, in any order: the slice
starts increase strictly, none exceeds the watermark, and the watermark is the initial -1
or the start of a slice. -/
def ScanOrdered (st : ScanState) : Prop :=
  (st.slices.map (fun s => s.start)).Pairwise (fun x y => x < y) ∧
    (∀ x ∈ st.slices.map (fun s => s.start), x ≤ st.lastStart) ∧
    (st.lastStart = -1 ∨ st.lastStart ∈ st.slices.map (fun s => s.start))

/-- What holds of the loop variables after the rows `done`, when these are ordered by
start, aligned and distinct per channel: the slice bounds are the row bounds, and every
slice holds the segments of the rows with its bounds, one entry per channel. -/
def ScanInv (tmp : String) (rv : RequestVars) (done : List Row) (st : ScanState) : Prop :=
  ScanOrdered st ∧
    (∀ p, p ∈ st.slices.map TimeSlice.bounds ↔ p ∈ done.map Row.bounds) ∧
    (∀ s ∈ st.slices, (s.segments.map Prod.fst).Nodup ∧
      ∀ ch seg, (ch, seg) ∈ s.segments ↔
        ∃ r ∈ done, r.bounds = s.bounds ∧ r.channel_id = ch ∧ seg = rowSegment tmp rv r)

/-- Rows ordered by start ascending. -/
def RowsSorted (rows : List Row) : Prop :=
  rows.Pairwise (fun a b => a.met_start ≤ b.met_start)

/-- At most one row per channel for each pair of bounds. -/
def RowsDistinct (rows : List Row) : Prop :=
  rows.Pairwise (fun a b => ¬ (a.bounds = b.bounds ∧ a.channel_id = b.channel_id))

/-- Rows that share a start share the end. -/
def RowsAligned (rows : List Row) : Prop :=
  rows.Pairwise (fun a b => a.met_start = b.met_start → a.met_end = b.met_end)

/-- No row starts before time zero. -/
def RowsNonneg (rows : List Row) : Prop :=
  ∀ a ∈ rows, 0 ≤ a.met_start

/-- The result `res` holds exactly one slice for each pair of bounds occurring among the
rows, each slice holds exactly the segments of the rows with its bounds, keyed by channel,
and the slices are in ascending start order. -/
def SliceBuilderSpec (tmp : String) (rv : RequestVars) (rows : List Row)
    (res : List TimeSlice) : Prop :=
  (res.map TimeSlice.bounds).Nodup ∧
    (∀ p, p ∈ res.map TimeSlice.bounds ↔ p ∈ rows.map Row.bounds) ∧
    (∀ s ∈ res, (s.segments.map Prod.fst).Nodup ∧
      ∀ ch seg, (ch, seg) ∈ s.segments ↔
        ∃ r ∈ rows, r.bounds = s.bounds ∧ r.channel_id = ch ∧ seg = rowSegment tmp rv r) ∧
    (res.map (fun s => s.start)).Pairwise (fun x y => x ≤ y)

/-! ## Example inputs -/

/-- The request and slice of the single-slice example. -/
def rvSingle : RequestVars :=
  { Mission := 11, Channels := ["14"], Format := "aac", Start := 1000, Duration := 4000 }

/-- The request of the two-slice example. -/
def rvPair : RequestVars :=
  { Mission := 11, Channels := ["14"], Format := "aac", Start := 1000, Duration := 5000 }

/-- The slices of the two-slice example. -/
def slicesPair : List TimeSlice := [NewTimeSlice 0 3000, NewTimeSlice 3000 7000]

/-- The slice list of the file mode examples: one slice with one segment. -/
def slicesOne : List TimeSlice :=
  [{ start := 800, end_ := 6000,
     segments := [(14, { start := 800, end_ := 6000, url := "u", localPath := "a.wav",
                         channel_id := 14 })] }]

/-- The rows of the aligned example: two channels on the first window, one on the second. -/
def rowsAligned : List Row :=
  [⟨0, 3000, "u1", 14⟩, ⟨0, 3000, "u2", 15⟩, ⟨3000, 7000, "u3", 14⟩]

/-- Two rows with the same start and different ends. -/
def rowsUnaligned : List Row := [⟨0, 10, "u1", 1⟩, ⟨0, 20, "u2", 2⟩]

/-- One row that starts before time zero. -/
def rowsNegative : List Row := [⟨-5, 10, "u1", 1⟩]

/-- A request for the same channels and window as `rvSingle`, of another mission. -/
def rvOtherMission : RequestVars := { rvSingle with Mission := 12 }

/-- A request for the same channels and window as `rvSingle`, of another mission and in
another format. -/
def rvOtherMissionOgg : RequestVars := { rvSingle with Mission := 12, Format := "ogg" }

/-- Rows in no particular order, one of them unreadable, two of them for the same channel
and bounds. -/
def rowsMixed : List (Option Row) :=
  [some ⟨3000, 7000, "u1", 14⟩, none, some ⟨0, 3000, "u2", 15⟩, some ⟨3000, 7000, "u3", 15⟩,
    some ⟨3000, 7000, "u4", 14⟩, some ⟨9000, 9500, "u5", 16⟩, some ⟨9000, 9900, "u6", 14⟩]

/-! ## Rows in any order: predicate and variants of the slice placement -/

/-- Every segment of every slice has the bounds of its slice and is stored under its own
channel id. -/
def SlicesWellKeyed (slices : List TimeSlice) : Prop :=
  ∀ s ∈ slices, ∀ e ∈ s.segments,
    e.2.start = s.start ∧ e.2.end_ = s.end_ ∧ e.2.channel_id = e.1

/-- Variant of "Add to proper slice" from the design note of the specification: the segment
is compared only against the most recently opened slice, the last of the list. -/
def addToLastOpened : List TimeSlice → AudioSegment → List TimeSlice
  | [], _ => []
  | [a], segment =>
    if segment.start = a.start ∧ segment.end_ = a.end_ then [a.store segment] else [a]
  | a :: b :: rest, segment => a :: addToLastOpened (b :: rest) segment

/-- One iteration of the row loop with `addToLastOpened` in place of the linear scan. -/
def scanRowLastOpened (tmp : String) (rv : RequestVars) (st : ScanState)
    (row : Option Row) : ScanState :=
  match row with
  | none => st
  | some r =>
    let opened : ScanState :=
      if r.met_start > st.lastStart then
        { slices := st.slices ++ [NewTimeSlice r.met_start r.met_end],
          lastStart := r.met_start }
      else st
    { opened with slices := addToLastOpened opened.slices (rowSegment tmp rv r) }

/-- The row loop that compares each row only against the most recently opened slice. -/
def GetRequestSlicesLastOpened (tmp : String) (rv : RequestVars)
    (rows : List (Option Row)) : List TimeSlice :=
  (rows.foldl (scanRowLastOpened tmp rv) { slices := [], lastStart := -1 }).slices

/-- Variant of "Add to proper slice" in the words of the specification: the segment goes
into the most recently opened slice whose bounds match, the scan running from the last
slice to the first. -/
def addToLastMatching (slices : List TimeSlice) (segment : AudioSegment) : List TimeSlice :=
  (addToSlice slices.reverse segment).reverse

/-- One iteration of the row loop with `addToLastMatching` in place of the linear scan. -/
def scanRowLastMatching (tmp : String) (rv : RequestVars) (st : ScanState)
    (row : Option Row) : ScanState :=
  match row with
  | none => st
  | some r =>
    let opened : ScanState :=
      if r.met_start > st.lastStart then
        { slices := st.slices ++ [NewTimeSlice r.met_start r.met_end],
          lastStart := r.met_start }
      else st
    { opened with slices := addToLastMatching opened.slices (rowSegment tmp rv r) }

/-- The row loop that stores each row in the most recently opened matching slice. -/
def GetRequestSlicesLastMatching (tmp : String) (rv : RequestVars)
    (rows : List (Option Row)) : List TimeSlice :=
  (rows.foldl (scanRowLastMatching tmp rv) { slices := [], lastStart := -1 }).slices

/-- Rows out of order: the third row belongs to the first slice, not to the last. -/
def rowsUnsorted : List Row := [⟨0, 10, "u1", 1⟩, ⟨5, 20, "u2", 1⟩, ⟨0, 10, "u3", 2⟩]

/-! ## The numbers behind the trim arguments and the spans they keep -/

/-- The decimal rendering of `ms / 1000` with exactly four fractional digits: sign, integer
part, point and the four digits of the `10 * |ms|` ten-thousandths. -/
def exactSeconds (ms : Int) : String :=
  renderTicks (decide (ms < 0)) (10 * ms.natAbs)

/-- Rendered by `formatSeconds` as the exact decimal: magnitudes below 549755813888003
milliseconds (`2 ^ 39` seconds and 3 milliseconds), where the float64 quotient is within
half a ten-thousandth of `ms / 1000`. -/
def RendersExactly (ms : Int) : Prop := ms.natAbs < 549755813888003

/-- The numbers of a trim instruction: no instruction, a leading offset, a leading offset
with a duration, or a duration from position zero (all in milliseconds). -/
inductive TrimSpec where
  | noTrim : TrimSpec
  | offsetOnly (offset : Int) : TrimSpec
  | offsetFor (offset duration : Int) : TrimSpec
  | zeroFor (duration : Int) : TrimSpec
deriving DecidableEq, Repr

/-- The arguments that hand a trim instruction to `sox`. -/
def TrimSpec.render : TrimSpec → List String
  | TrimSpec.noTrim => []
  | TrimSpec.offsetOnly o => ["trim", formatSeconds o]
  | TrimSpec.offsetFor o d => ["trim", formatSeconds o, formatSeconds d]
  | TrimSpec.zeroFor d => ["trim", "0", formatSeconds d]

/-- The variable `duration` of `getSoxTrimArgs`, in 64-bit arithmetic. -/
def capDuration (rv : RequestVars) (slice : TimeSlice) : Int :=
  if rv.Start > slice.start then wrap64 (wrap64 (rv.Start + rv.Duration) - rv.Start)
  else wrap64 (wrap64 (rv.Start + rv.Duration) - slice.start)

/-- The values of `trimOffset` and `duration` that `getSoxTrimArgs` renders: the same two
tests on the same variables, with the numbers in place of their renderings. -/
def trimSpec (i : Int) (rv : RequestVars) (slices : List TimeSlice) : Option TrimSpec :=
  if i < 0 then none
  else
    match slices[i.toNat]? with
    | none => none
    | some slice =>
      let first : Bool := decide (i = 0 ∧ rv.Start > slice.start)
      let trimOffset : Int := if first then wrap64 (rv.Start - slice.start) else 0
      let reqEnd := wrap64 (rv.Start + rv.Duration)
      if i = (slices.length : Int) - 1 ∧ slice.end_ > reqEnd then
        let duration : Int :=
          if rv.Start > slice.start then wrap64 (reqEnd - rv.Start)
          else wrap64 (reqEnd - slice.start)
        if first then some (TrimSpec.offsetFor trimOffset duration)
        else some (TrimSpec.zeroFor duration)
      else if first then some (TrimSpec.offsetOnly trimOffset)
      else some TrimSpec.noTrim

/-- The value of a decimal digit. -/
def digitValue (c : Char) : Nat := c.toNat - 48

/-- The number written by a list of decimal digits. -/
def ofDigits (cs : List Char) : Nat := cs.foldl (fun acc c => 10 * acc + digitValue c) 0

/-- A time argument without sign, read in ten-thousandths of a second: digits alone, or
digits, a point and four digits. -/
def parseUnsigned (cs : List Char) : Option Nat :=
  match cs.takeWhile Char.isDigit, cs.dropWhile Char.isDigit with
  | [], _ => none
  | c :: ip, [] => some (ofDigits (c :: ip) * 10000)
  | c :: ip, [p, d1, d2, d3, d4] =>
    if p = '.' ∧ d1.isDigit ∧ d2.isDigit ∧ d3.isDigit ∧ d4.isDigit then
      some (ofDigits (c :: ip) * 10000 + ofDigits [d1, d2, d3, d4])
    else none
  | _, _ => none

/-- A time argument of `trim`, as the code writes them, read in ten-thousandths of a
second. -/
def parseTicks (s : String) : Option Int :=
  match s.data with
  | [] => none
  | c :: body =>
    if c = '-' then (parseUnsigned body).map (fun (n : Nat) => -(n : Int))
    else (parseUnsigned (c :: body)).map (fun (n : Nat) => (n : Int))

/-- The span of absolute time that trim arguments keep of a stream beginning at the start
of `slice`, in ten-thousandths of a second: from the slice start plus the offset, for the
duration when there is one, else to the slice end. -/
def spanOfArgs (slice : TimeSlice) (args : List String) : Option (Int × Int) :=
  match args with
  | [] => some (10 * slice.start, 10 * slice.end_)
  | [t, off] =>
    if t = "trim" then
      (parseTicks off).map (fun (o : Int) => (10 * slice.start + o, 10 * slice.end_))
    else none
  | [t, off, dur] =>
    if t = "trim" then
      match parseTicks off, parseTicks dur with
      | some o, some d => some (10 * slice.start + o, 10 * slice.start + o + d)
      | _, _ => none
    else none
  | _ => none

/-- The span kept from slice `i` by the arguments `getSoxTrimArgs` returns for it, in
ten-thousandths of a second. -/
def keptSpan (i : Int) (rv : RequestVars) (slices : List TimeSlice) : Option (Int × Int) :=
  match slices[i.toNat]?, getSoxTrimArgs i rv slices with
  | some slice, some args => spanOfArgs slice args
  | _, _ => none

/-- The spans kept from the slices, in slice order. -/
def keptSpans (rv : RequestVars) (slices : List TimeSlice) : List (Option (Int × Int)) :=
  (List.range slices.length).map (fun (i : Nat) => keptSpan (i : Int) rv slices)

/-- The length of a kept span. -/
def spanLength (p : Option (Int × Int)) : Int :=
  match p with
  | some (a, b) => b - a
  | none => 0

/-- The intersection of a slice with the request window, as a pair of bounds in
ten-thousandths of a second. -/
def clipToWindow (rv : RequestVars) (s : TimeSlice) : Int × Int :=
  (10 * max s.start rv.Start, 10 * min s.end_ (rv.Start + rv.Duration))

/-- The spans follow one another without gap or overlap from `a` to `b`. -/
def SpansTile : List (Int × Int) → Int → Int → Prop
  | [], a, b => a = b
  | p :: rest, a, b => p.1 = a ∧ SpansTile rest p.2 b

/-- Three contiguous slices that cover the window of `rvPair`. -/
def slicesCover : List TimeSlice :=
  [NewTimeSlice 0 3000, NewTimeSlice 3000 5000, NewTimeSlice 5000 7000]

/-- A request whose start is beyond the range of exact rendering. -/
def rvLarge : RequestVars :=
  { Mission := 11, Channels := ["14"], Format := "aac", Start := 600000000000003,
    Duration := 1 }

/-- A request whose duration is beyond the range of exact rendering. -/
def rvLongDuration : RequestVars :=
  { Mission := 11, Channels := ["14"], Format := "aac", Start := 0,
    Duration := 600000000000003 }

/-- A slice from time zero that ends after both of these windows. -/
def sliceLong : TimeSlice := NewTimeSlice 0 1000000000000000000

/-- A request whose start plus duration lies below the least 64-bit integer. -/
def rvUnderflow : RequestVars :=
  { Mission := 11, Channels := ["14"], Format := "aac", Start := -9223372036854775807,
    Duration := -2 }

/-- A slice that starts at the least 64-bit integer. -/
def sliceLeast : TimeSlice := NewTimeSlice (-9223372036854775808) 0

/-- A request whose start plus duration lies above the greatest 64-bit integer. -/
def rvOverflow : RequestVars :=
  { Mission := 11, Channels := ["14"], Format := "aac", Start := 9223372036854775802,
    Duration := 10 }

/-- A slice that ends at the greatest 64-bit integer. -/
def sliceGreatest : TimeSlice := NewTimeSlice 9223372036854775797 9223372036854775807

/-! ## Rounding, rendering and reading of time arguments -/

theorem roundHalfEven_err (n d : Nat) (hd : 0 < d) :
    2 * (roundHalfEven n d * d) ≤ 2 * n + d ∧ 2 * n ≤ 2 * (roundHalfEven n d * d) + d := by
  have h1 : n / d * d + n % d = n := Nat.div_add_mod' n d
  have h2 : (n / d + 1) * d = n / d * d + d := Nat.succ_mul _ _
  have h3 : n % d < d := Nat.mod_lt _ hd
  unfold roundHalfEven
  simp only
  split_ifs with c1 c2 c3
  · generalize n / d * d = P at h1 h2 ⊢
    generalize n % d = r at h1 h3 c1
    constructor <;> omega
  · rw [h2]
    generalize n / d * d = P at h1 h2 ⊢
    generalize n % d = r at h1 h3 c1 c2
    constructor <;> omega
  · generalize n / d * d = P at h1 h2 ⊢
    generalize n % d = r at h1 h3 c1 c2
    constructor <;> omega
  · rw [h2]
    generalize n / d * d = P at h1 h2 ⊢
    generalize n % d = r at h1 h3 c1 c2
    constructor <;> omega

theorem roundHalfEven_unique (n d k : Nat) (h1 : 2 * (k * d) < 2 * n + d)
    (h2 : 2 * n < 2 * (k * d) + d) : roundHalfEven n d = k := by
  have hd : 0 < d := by
    rcases Nat.eq_zero_or_pos d with h | h
    · subst h; simp at h1 h2
    · exact h
  by_cases hle : k * d ≤ n
  · have hq : n / d = k ∧ n % d = n - k * d := by
      rw [Nat.div_mod_unique hd]
      constructor
      · rw [Nat.mul_comm d k]; omega
      · omega
    unfold roundHalfEven
    simp only [hq.1, hq.2]
    have : 2 * (n - k * d) < d := by omega
    simp [this]
  · have hk : 0 < k := by
      rcases Nat.eq_zero_or_pos k with h | h
      · subst h; simp at hle
      · exact h
    have hkd : k * d = (k - 1) * d + d := by
      have : k = (k - 1) + 1 := by omega
      conv_lhs => rw [this]
      ring
    have hq : n / d = k - 1 ∧ n % d = n - (k - 1) * d := by
      rw [Nat.div_mod_unique hd]
      constructor
      · rw [Nat.mul_comm d (k - 1)]; omega
      · omega
    unfold roundHalfEven
    simp only [hq.1, hq.2]
    have h3 : ¬ 2 * (n - (k - 1) * d) < d := by omega
    have h4 : d < 2 * (n - (k - 1) * d) := by omega
    simp only [h3, h4, if_false, if_true]
    omega

theorem log2Fuel_le : ∀ fuel n, n ≠ 0 → 2 ^ log2Fuel fuel n ≤ n := by
  intro fuel
  induction fuel with
  | zero => intro n hn; simp [log2Fuel]; omega
  | succ fuel ih =>
    intro n hn
    by_cases h2 : n < 2
    · simp [log2Fuel, h2]; omega
    · simp only [log2Fuel, h2, if_false]
      have := ih (n / 2) (by omega)
      rw [pow_succ]
      omega

theorem floorLog2_lt (n k : Nat) (hn : n ≠ 0) (h : n < 2 ^ k) : floorLog2 n < k := by
  have h1 := log2Fuel_le n n hn
  by_contra hk
  have : 2 ^ k ≤ 2 ^ floorLog2 n := Nat.pow_le_pow_right (by norm_num) (by omega)
  unfold floorLog2 at this
  omega

set_option maxRecDepth 8000 in
theorem float64Ticks_exact (a : Nat) (ha : a < 549755813888000) :
    float64Ticks a = 10 * a := by
  by_cases h0 : a = 0
  · subst h0; decide
  · have hconv : roundTo53 a 1 = a := by
      have hl : floorLog2 a < 53 := floorLog2_lt a 53 h0 (by norm_num; omega)
      unfold roundTo53
      simp only [Nat.div_one]
      have ht : floorLog2 a - 52 = 0 := by omega
      rw [ht]
      simp only [pow_zero, Nat.mul_one]
      exact roundHalfEven_unique a 1 a (by omega) (by omega)
    unfold float64Ticks
    rw [hconv]
    have hY : a * 2 ^ 62 / 1000 < 2 ^ 101 := by
      apply Nat.div_lt_of_lt_mul
      norm_num
      omega
    have hYpos : a * 2 ^ 62 / 1000 ≠ 0 := by
      have h1 : 1000 ≤ a * 2 ^ 62 := by norm_num; omega
      have := Nat.div_pos h1 (by norm_num : 0 < 1000)
      omega
    have hl : floorLog2 (a * 2 ^ 62 / 1000) < 101 := floorLog2_lt _ 101 hYpos hY
    unfold roundTo53
    simp only
    have ht : floorLog2 (a * 2 ^ 62 / 1000) - 52 ≤ 48 := by omega
    generalize floorLog2 (a * 2 ^ 62 / 1000) - 52 = t at ht
    have hpow : 2 ^ t ≤ 2 ^ 48 := Nat.pow_le_pow_right (by norm_num) ht
    have herr := roundHalfEven_err (a * 2 ^ 62) (1000 * 2 ^ t) (by positivity)
    generalize roundHalfEven (a * 2 ^ 62) (1000 * 2 ^ t) = M at herr
    apply roundHalfEven_unique
    · have e1 : M * 2 ^ t * 10000 = 10 * (M * (1000 * 2 ^ t)) := by ring
      have e2 : 10 * a * 2 ^ 62 = 10 * (a * 2 ^ 62) := by ring
      rw [e1, e2]
      norm_num at hpow herr ⊢
      omega
    · have e1 : M * 2 ^ t * 10000 = 10 * (M * (1000 * 2 ^ t)) := by ring
      have e2 : 10 * a * 2 ^ 62 = 10 * (a * 2 ^ 62) := by ring
      rw [e1, e2]
      norm_num at hpow herr ⊢
      omega

set_option maxRecDepth 8000 in
theorem float64Ticks_exact_tight (a : Nat) (ha : a < 549755813888003) :
    float64Ticks a = 10 * a := by
  by_cases h : a < 549755813888000
  · exact float64Ticks_exact a h
  · have h3 : a = 549755813888000 ∨ a = 549755813888001 ∨ a = 549755813888002 := by omega
    rcases h3 with h3 | h3 | h3 <;> subst h3 <;> decide

/-- Below the threshold the float64 quotient renders as the exact decimal. -/
theorem formatSeconds_exact (ms : Int) (h : RendersExactly ms) :
    formatSeconds ms = exactSeconds ms := by
  unfold formatSeconds exactSeconds
  rw [float64Ticks_exact_tight _ h]

theorem digitChar_isDigit (d : Nat) (h : d < 10) :
    (Nat.digitChar d).isDigit = true ∧ digitValue (Nat.digitChar d) = d := by
  interval_cases d <;> decide

theorem digitsRev_isDigit : ∀ fuel n, ∀ c ∈ digitsRev fuel n, c.isDigit = true := by
  intro fuel
  induction fuel with
  | zero => intro n c hc; simp [digitsRev] at hc
  | succ fuel ih =>
    intro n c hc
    by_cases h : n < 10
    · simp only [digitsRev, h, if_true, List.mem_singleton] at hc
      rw [hc]
      exact (digitChar_isDigit n h).1
    · simp only [digitsRev, h, if_false, List.mem_cons] at hc
      rcases hc with hc | hc
      · rw [hc]
        exact (digitChar_isDigit _ (Nat.mod_lt _ (by norm_num))).1
      · exact ih _ c hc

theorem digitsRev_value : ∀ fuel n, n < fuel →
    (digitsRev fuel n).foldr (fun c acc => 10 * acc + digitValue c) 0 = n := by
  intro fuel
  induction fuel with
  | zero => intro n h; omega
  | succ fuel ih =>
    intro n hn
    by_cases h : n < 10
    · simp only [digitsRev, h, if_true, List.foldr_cons, List.foldr_nil]
      rw [(digitChar_isDigit n h).2]
      omega
    · simp only [digitsRev, h, if_false, List.foldr_cons]
      rw [(digitChar_isDigit _ (Nat.mod_lt _ (by norm_num))).2, ih (n / 10) (by omega)]
      omega

theorem decimal_isDigit (n : Nat) : ∀ c ∈ decimal n, c.isDigit = true := by
  intro c hc
  unfold decimal at hc
  rw [List.mem_reverse] at hc
  exact digitsRev_isDigit _ _ c hc

theorem decimal_ne_nil (n : Nat) : decimal n ≠ [] := by
  unfold decimal
  intro h
  rw [List.reverse_eq_nil_iff] at h
  by_cases h10 : n < 10
  · simp [digitsRev, h10] at h
  · simp [digitsRev, h10] at h

theorem ofDigits_decimal (n : Nat) : ofDigits (decimal n) = n := by
  unfold ofDigits decimal
  rw [List.foldl_reverse]
  exact digitsRev_value (n + 1) n (by omega)

theorem digits4_spec (m : Nat) (h : m < 10000) :
    (∀ c ∈ digits4 m, c.isDigit = true) ∧ ofDigits (digits4 m) = m := by
  have h1 := digitChar_isDigit (m / 1000 % 10) (Nat.mod_lt _ (by norm_num))
  have h2 := digitChar_isDigit (m / 100 % 10) (Nat.mod_lt _ (by norm_num))
  have h3 := digitChar_isDigit (m / 10 % 10) (Nat.mod_lt _ (by norm_num))
  have h4 := digitChar_isDigit (m % 10) (Nat.mod_lt _ (by norm_num))
  constructor
  · intro c hc
    simp only [digits4, List.mem_cons, List.mem_singleton, List.not_mem_nil, or_false] at hc
    rcases hc with hc | hc | hc | hc <;> rw [hc]
    · exact h1.1
    · exact h2.1
    · exact h3.1
    · exact h4.1
  · simp only [ofDigits, digits4, List.foldl_cons, List.foldl_nil, h1.2, h2.2, h3.2, h4.2]
    omega

theorem parseUnsigned_render (q m : Nat) (h : m < 10000) :
    parseUnsigned (decimal q ++ ['.'] ++ digits4 m) = some (q * 10000 + m) := by
  have hdig := decimal_isDigit q
  have hne := decimal_ne_nil q
  have h4 := digits4_spec m h
  have htake : (decimal q ++ ['.'] ++ digits4 m).takeWhile Char.isDigit = decimal q := by
    rw [List.append_assoc, List.takeWhile_append_of_pos hdig]
    simp [List.takeWhile]
  have hdrop : (decimal q ++ ['.'] ++ digits4 m).dropWhile Char.isDigit =
      '.' :: digits4 m := by
    rw [List.append_assoc, List.dropWhile_append_of_pos hdig]
    simp [List.dropWhile]
  unfold parseUnsigned
  rw [htake, hdrop]
  cases hd : decimal q with
  | nil => exact absurd hd hne
  | cons c ip =>
    have hval : ofDigits (c :: ip) = q := by rw [← hd]; exact ofDigits_decimal q
    have hall := h4.1
    simp only [digits4, List.mem_cons, List.mem_singleton, List.not_mem_nil, or_false,
      forall_eq_or_imp, forall_eq] at hall
    have hv4 := h4.2
    simp only [digits4] at hv4 ⊢
    simp only [hall.1, hall.2.1, hall.2.2.1, hall.2.2.2, and_self, if_true, hval, hv4]

theorem parseTicks_render (neg : Bool) (ticks : Nat) :
    parseTicks (renderTicks neg ticks) =
      some (if neg then -(ticks : Int) else (ticks : Int)) := by
  have hp := parseUnsigned_render (ticks / 10000) (ticks % 10000) (Nat.mod_lt _ (by norm_num))
  have hsum : ticks / 10000 * 10000 + ticks % 10000 = ticks := Nat.div_add_mod' ticks 10000
  rw [hsum] at hp
  cases neg with
  | true =>
    simp only [parseTicks, renderTicks, if_true, List.cons_append, List.nil_append,
      hp, Option.map_some']
  | false =>
    have hne := decimal_ne_nil (ticks / 10000)
    have hdig := decimal_isDigit (ticks / 10000)
    cases hd : decimal (ticks / 10000) with
    | nil => exact absurd hd hne
    | cons c ip =>
      have hc : c.isDigit = true := hdig c (by rw [hd]; exact List.mem_cons_self _ _)
      have hcm : ¬ c = '-' := by
        intro h
        rw [h] at hc
        revert hc
        decide
      rw [hd] at hp
      simp only [List.cons_append] at hp
      simp only [parseTicks, renderTicks, Bool.false_eq_true, if_false, List.nil_append,
        hd, List.cons_append, hcm, hp, Option.map_some']

/-- The exact rendering of a number of milliseconds reads back as its ten-thousandths. -/
theorem parseTicks_exactSeconds (ms : Int) : parseTicks (exactSeconds ms) = some (10 * ms) := by
  unfold exactSeconds
  rw [parseTicks_render]
  by_cases h : ms < 0
  · simp only [h, decide_True, if_true]
    congr 1
    omega
  · simp only [h, decide_False, Bool.false_eq_true, if_false]
    congr 1
    omega

theorem parseTicks_formatSeconds (ms : Int) (h : RendersExactly ms) :
    parseTicks (formatSeconds ms) = some (10 * ms) := by
  rw [formatSeconds_exact ms h, parseTicks_exactSeconds]

theorem wrap64_eq (x : Int) (h : IsInt64 x) : wrap64 x = x := by
  unfold IsInt64 at h
  unfold wrap64
  omega

theorem wrap64_sub_ne_zero (a b : Int) (ha : IsInt64 a) (hb : IsInt64 b) (h : a > b) :
    wrap64 (a - b) ≠ 0 := by
  unfold IsInt64 at ha hb
  unfold wrap64
  omega

theorem isInt64_of_rendersExactly (x : Int) (h : RendersExactly x) : IsInt64 x := by
  unfold RendersExactly at h
  unfold IsInt64
  omega

/-! ## Trim arguments: statements -/

/-- C2, as stated, fails: at an offset of 600000000000003 ms the code renders the float64
quotient, "600000000000.0031", where the decimal rendering of the offset is
"600000000000.0030"; and where start plus duration lies below the least 64-bit integer the
sum wraps, the test on the slice end fails and no duration is emitted. -/
theorem getSoxTrimArgs_single_counterexample :
    (sliceLong.start < rvLarge.Start ∧ sliceLong.end_ > rvLarge.Start + rvLarge.Duration ∧
      getSoxTrimArgs 0 rvLarge [sliceLong] =
        some ["trim", "600000000000.0031", "0.0010"] ∧
      [ "trim", exactSeconds (rvLarge.Start - sliceLong.start),
          exactSeconds rvLarge.Duration] = ["trim", "600000000000.0030", "0.0010"]) ∧
    (sliceLeast.start < rvUnderflow.Start ∧
      sliceLeast.end_ > rvUnderflow.Start + rvUnderflow.Duration ∧
      getSoxTrimArgs 0 rvUnderflow [sliceLeast] = some ["trim", "0.0010"] ∧
      [ "trim", exactSeconds (rvUnderflow.Start - sliceLeast.start),
          exactSeconds rvUnderflow.Duration] = ["trim", "0.0010", "-0.0020"]) := by
  set_option maxRecDepth 8000 in decide

/-- C2, amended: for a one-element slice list whose slice starts before the request start
and ends after the request end, where start plus duration is a 64-bit integer and the
offset and the duration are of magnitude below 549755813888003 ms, the per-slice trim is
the leading offset followed by the requested duration, both as the decimal rendering of
the seconds with four fractional digits. -/
theorem getSoxTrimArgs_single (rv : RequestVars) (s : TimeSlice)
    (hstart : s.start < rv.Start) (hend : s.end_ > rv.Start + rv.Duration)
    (hsum : IsInt64 (rv.Start + rv.Duration))
    (hoff : RendersExactly (rv.Start - s.start)) (hdur : RendersExactly rv.Duration) :
    getSoxTrimArgs 0 rv [s] =
      some ["trim", exactSeconds (rv.Start - s.start), exactSeconds rv.Duration] := by
  have hw1 : wrap64 (rv.Start + rv.Duration) = rv.Start + rv.Duration := wrap64_eq _ hsum
  have hw2 : wrap64 (rv.Start - s.start) = rv.Start - s.start :=
    wrap64_eq _ (isInt64_of_rendersExactly _ hoff)
  have hw3 : wrap64 (rv.Start + rv.Duration - rv.Start) = rv.Duration := by
    have : rv.Start + rv.Duration - rv.Start = rv.Duration := by omega
    rw [this]
    exact wrap64_eq _ (isInt64_of_rendersExactly _ hdur)
  have hw4 : wrap64 rv.Duration = rv.Duration :=
    wrap64_eq _ (isInt64_of_rendersExactly _ hdur)
  have hne : rv.Start - s.start ≠ 0 := by omega
  rw [← formatSeconds_exact _ hoff, ← formatSeconds_exact _ hdur]
  simp [getSoxTrimArgs, hstart, hend, hne, hw1, hw2, hw3, hw4]

theorem getSoxTrimArgs_single_witness :
    getSoxTrimArgs 0 rvSingle [NewTimeSlice 800 6000] = some ["trim", "0.2000", "4.0000"] :=
  (getSoxTrimArgs_single rvSingle (NewTimeSlice 800 6000) (by decide) (by decide)
    (by unfold IsInt64; decide) (by unfold RendersExactly; decide)
    (by unfold RendersExactly; decide)).trans (by decide)

/-- C3, as stated, fails: at a duration of 600000000000003 ms the code renders the cap as
"600000000000.0031", not as the decimal "600000000000.0030"; and where start plus duration
lies below the least 64-bit integer the sum wraps and no cap is emitted. -/
theorem getSoxTrimArgs_last_counterexample :
    (sliceLong.end_ > rvLongDuration.Start + rvLongDuration.Duration ∧
      getSoxTrimArgs 0 rvLongDuration [sliceLong] =
        some ["trim", "0", "600000000000.0031"] ∧
      exactSeconds (rvLongDuration.Start + rvLongDuration.Duration -
        max rvLongDuration.Start sliceLong.start) = "600000000000.0030") ∧
    (sliceLeast.end_ > rvUnderflow.Start + rvUnderflow.Duration ∧
      getSoxTrimArgs 1 rvUnderflow [sliceLeast, sliceLeast] = some []) := by
  set_option maxRecDepth 8000 in decide

/-- C3, amended: for the last slice of a non-empty list, ending after the request end,
where start plus duration is a 64-bit integer and the cap is of magnitude below
549755813888003 ms, the last argument of the per-slice trim is the duration cap: request
end minus the larger of request start and slice start, as the decimal rendering of the
seconds with four fractional digits. -/
theorem getSoxTrimArgs_last (rv : RequestVars) (slices : List TimeSlice) (s : TimeSlice)
    (hne : slices ≠ []) (hs : slices[slices.length - 1]? = some s)
    (hend : s.end_ > rv.Start + rv.Duration)
    (hsum : IsInt64 (rv.Start + rv.Duration))
    (hcap : RendersExactly (rv.Start + rv.Duration - max rv.Start s.start)) :
    ∃ args, getSoxTrimArgs ((slices.length : Int) - 1) rv slices = some args ∧
      args.getLast? = some (exactSeconds (rv.Start + rv.Duration - max rv.Start s.start)) := by
  have hlen : 0 < slices.length := List.length_pos.mpr hne
  have hi : ¬ ((slices.length : Int) - 1 < 0) := by omega
  have ht : ((slices.length : Int) - 1).toNat = slices.length - 1 := by omega
  have hw1 : wrap64 (rv.Start + rv.Duration) = rv.Start + rv.Duration := wrap64_eq _ hsum
  rw [← formatSeconds_exact _ hcap]
  unfold getSoxTrimArgs
  rw [if_neg hi, ht, hs]
  simp only [hw1, hend, and_self, if_true]
  by_cases hgt : rv.Start > s.start
  · have hmax : max rv.Start s.start = rv.Start := max_eq_left (le_of_lt hgt)
    rw [hmax] at hcap ⊢
    have hw3 : wrap64 (rv.Start + rv.Duration - rv.Start) =
        rv.Start + rv.Duration - rv.Start :=
      wrap64_eq _ (isInt64_of_rendersExactly _ hcap)
    simp only [hgt, if_true, hw3]
    split_ifs <;> simp
  · have hmax : max rv.Start s.start = s.start := max_eq_right (by omega)
    rw [hmax] at hcap ⊢
    have hw3 : wrap64 (rv.Start + rv.Duration - s.start) =
        rv.Start + rv.Duration - s.start :=
      wrap64_eq _ (isInt64_of_rendersExactly _ hcap)
    simp only [hgt, if_false, hw3]
    split_ifs <;> simp

theorem getSoxTrimArgs_last_witness :
    ∃ args, getSoxTrimArgs 1 rvPair slicesPair = some args ∧
      args.getLast? = some "3.0000" :=
  getSoxTrimArgs_last rvPair slicesPair (NewTimeSlice 3000 7000) (by decide) (by decide)
    (by decide) (by unfold IsInt64; decide) (by unfold RendersExactly; decide)

/-- C4, as stated, fails: at an offset of 600000000000003 ms the code renders the float64
quotient, "600000000000.0031", where the decimal rendering of the offset is
"600000000000.0030". -/
theorem getSoxTrimArgs_first_of_several_counterexample :
    rvLarge.Start > (NewTimeSlice 0 3).start ∧
      getSoxTrimArgs 0 rvLarge [NewTimeSlice 0 3, NewTimeSlice 3 4] =
        some ["trim", "600000000000.0031"] ∧
      exactSeconds (rvLarge.Start - (NewTimeSlice 0 3).start) = "600000000000.0030" := by
  set_option maxRecDepth 8000 in decide

/-- C4, amended: for the first of at least two slices, the per-slice trim is the leading
offset alone, as the decimal rendering of the seconds with four fractional digits, when
the request starts after the slice start by less than 549755813888003 ms, and empty when
the request does not start after the slice start. -/
theorem getSoxTrimArgs_first_of_several (rv : RequestVars) (slices : List TimeSlice)
    (s0 : TimeSlice) (hlen : 2 ≤ slices.length) (h0 : slices[0]? = some s0) :
    (rv.Start > s0.start → RendersExactly (rv.Start - s0.start) →
        getSoxTrimArgs 0 rv slices = some ["trim", exactSeconds (rv.Start - s0.start)]) ∧
      (rv.Start ≤ s0.start → getSoxTrimArgs 0 rv slices = some []) := by
  have hi : ¬ ((0 : Int) = (slices.length : Int) - 1) := by omega
  constructor
  · intro hgt hoff
    have hw2 : wrap64 (rv.Start - s0.start) = rv.Start - s0.start :=
      wrap64_eq _ (isInt64_of_rendersExactly _ hoff)
    rw [← formatSeconds_exact _ hoff]
    unfold getSoxTrimArgs
    simp [h0, hi, hgt, hw2]
  · intro hle
    have hng : ¬ rv.Start > s0.start := by omega
    unfold getSoxTrimArgs
    simp [h0, hi, hng]

theorem getSoxTrimArgs_first_of_several_witness :
    getSoxTrimArgs 0 rvPair slicesPair = some ["trim", "1.0000"] :=
  ((getSoxTrimArgs_first_of_several rvPair slicesPair (NewTimeSlice 0 3000) (by decide)
    (by decide)).1 (by decide) (by unfold RendersExactly; decide)).trans (by decide)

/-- C5: an interior slice, neither the first nor the last, gets no trim argument,
whatever its bounds. -/
theorem getSoxTrimArgs_interior (i : Int) (rv : RequestVars) (slices : List TimeSlice)
    (hpos : 0 < i) (hlast : i < (slices.length : Int) - 1) :
    getSoxTrimArgs i rv slices = some [] := by
  have hi : ¬ i < 0 := by omega
  have hlt : i.toNat < slices.length := by omega
  have h0 : ¬ i = 0 := by omega
  have hl : ¬ i = (slices.length : Int) - 1 := by omega
  obtain ⟨s, hs⟩ : ∃ s, slices[i.toNat]? = some s :=
    ⟨slices[i.toNat], List.getElem?_eq_getElem hlt⟩
  unfold getSoxTrimArgs
  simp [hi, hs, h0, hl]

theorem getSoxTrimArgs_interior_witness :
    getSoxTrimArgs 1 rvPair [NewTimeSlice 0 3000, NewTimeSlice 3000 9000,
      NewTimeSlice 9000 12000] = some [] :=
  getSoxTrimArgs_interior 1 rvPair _ (by decide) (by decide)

/-- C6, as stated, fails: at a duration of 600000000000003 ms the code renders the float64
quotient, "600000000000.0031", where the decimal rendering of the duration is
"600000000000.0030". -/
theorem soxBulkTrimArgs_first_slice_counterexample :
    soxBulkTrimArgs rvLongDuration [sliceLong] =
        some ["trim", "0.0000", "600000000000.0031"] ∧
      [ "trim", exactSeconds (max 0 (rvLongDuration.Start - sliceLong.start)),
          exactSeconds rvLongDuration.Duration] =
        ["trim", "0.0000", "600000000000.0030"] := by
  set_option maxRecDepth 8000 in decide

/-- C6, amended: in file mode the trim is the same for every slice list whose first slice
has the same start; and where the leading offset of the first slice and the duration are of
magnitude below 549755813888003 ms, it is that offset, never negative, followed by the
requested duration, both as the decimal rendering of the seconds with four fractional
digits. -/
theorem soxBulkTrimArgs_first_slice (rv : RequestVars) (slices : List TimeSlice)
    (s0 : TimeSlice) (h0 : slices[0]? = some s0) :
    (RendersExactly (max 0 (rv.Start - s0.start)) → RendersExactly rv.Duration →
        soxBulkTrimArgs rv slices =
          some ["trim", exactSeconds (max 0 (rv.Start - s0.start)),
            exactSeconds rv.Duration]) ∧
      ∀ (others : List TimeSlice) (t0 : TimeSlice), others[0]? = some t0 →
        t0.start = s0.start → soxBulkTrimArgs rv others = soxBulkTrimArgs rv slices := by
  constructor
  · intro hoff hdur
    rw [← formatSeconds_exact _ hoff, ← formatSeconds_exact _ hdur]
    unfold soxBulkTrimArgs
    rw [h0]
    by_cases hgt : rv.Start > s0.start
    · have hmax : max 0 (rv.Start - s0.start) = rv.Start - s0.start := max_eq_right (by omega)
      rw [hmax] at hoff ⊢
      have hw : wrap64 (rv.Start - s0.start) = rv.Start - s0.start :=
        wrap64_eq _ (isInt64_of_rendersExactly _ hoff)
      simp [hgt, hw]
    · have hmax : max 0 (rv.Start - s0.start) = 0 := max_eq_left (by omega)
      simp [hgt, hmax]
  · intro others t0 ht hst
    simp only [soxBulkTrimArgs, ht, h0, hst]

theorem soxBulkTrimArgs_first_slice_witness :
    soxBulkTrimArgs rvPair slicesPair = some ["trim", "1.0000", "5.0000"] :=
  ((soxBulkTrimArgs_first_slice rvPair slicesPair (NewTimeSlice 0 3000) (by decide)).1
    (by unfold RendersExactly; decide) (by unfold RendersExactly; decide)).trans
    (by decide)

/-! ## Assembly: statements -/

/-- Inside the slice list the per-slice trim never panics. -/
theorem getSoxTrimArgs_isSome (i : Nat) (rv : RequestVars) (slices : List TimeSlice)
    (hi : i < slices.length) : ∃ trim, getSoxTrimArgs (i : Int) rv slices = some trim := by
  have hneg : ¬ ((i : Int) < 0) := by omega
  have hs : slices[i]? = some slices[i] := List.getElem?_eq_getElem hi
  unfold getSoxTrimArgs
  simp only [hneg, if_false, Int.toNat_ofNat, hs]
  split_ifs <;> exact ⟨_, rfl⟩

theorem streamLoop_spec (rv : RequestVars) (slices : List TimeSlice) :
    ∀ (rest pre : List TimeSlice), slices = pre ++ rest →
      ∃ cmds, streamLoop rv slices pre.length rest = some cmds ∧
        cmds.length = rest.length ∧
        ∀ (j : Nat) (slice : TimeSlice), rest[j]? = some slice →
          ∃ trim, getSoxTrimArgs ((pre.length + j : Nat) : Int) rv slices = some trim ∧
            cmds[j]? = some (streamCommandOf slice rv trim) := by
  intro rest
  induction rest with
  | nil =>
    intro pre _
    exact ⟨[], rfl, rfl, by simp⟩
  | cons slice rest ih =>
    intro pre hpre
    have hlt : pre.length < slices.length := by simp [hpre]
    obtain ⟨trim, htrim⟩ := getSoxTrimArgs_isSome pre.length rv slices hlt
    have hnext : slices = (pre ++ [slice]) ++ rest := by simp [hpre]
    obtain ⟨cs, hcs, hlen, hall⟩ := ih (pre ++ [slice]) hnext
    have hl : (pre ++ [slice]).length = pre.length + 1 := by simp
    rw [hl] at hcs hall
    refine ⟨streamCommandOf slice rv trim :: cs, ?_, by simp [hlen], ?_⟩
    · simp [streamLoop, streamSlice, htrim, hcs, streamCommandOf]
    · intro j sl hj
      cases j with
      | zero =>
        simp at hj
        subst hj
        exact ⟨trim, by simpa using htrim, by simp⟩
      | succ j =>
        simp at hj
        obtain ⟨t, ht, hc⟩ := hall j sl hj
        refine ⟨t, ?_, by simpa using hc⟩
        have he : pre.length + (j + 1) = pre.length + 1 + j := by omega
        rw [he]
        exact ht

/-- Streaming mode builds one command pair per slice, in slice order, and never panics. -/
theorem DownloadAndStream_spec (slices : List TimeSlice) (rv : RequestVars) :
    ∃ cmds, DownloadAndStream slices rv = some cmds ∧ cmds.length = slices.length ∧
      ∀ (i : Nat) (slice : TimeSlice), slices[i]? = some slice →
        ∃ trim, getSoxTrimArgs (i : Int) rv slices = some trim ∧
          cmds[i]? = some (streamCommandOf slice rv trim) := by
  obtain ⟨cmds, h1, h2, h3⟩ := streamLoop_spec rv slices slices [] (by simp)
  refine ⟨cmds, h1, h2, ?_⟩
  intro i slice hi
  obtain ⟨t, ht, hc⟩ := h3 i slice hi
  exact ⟨t, by simpa using ht, hc⟩

/-- In file mode a slice with exactly one segment contributes its bare local path. -/
theorem encodeSliceCmd_one (slice : TimeSlice) (e : Int × AudioSegment)
    (h : slice.segments = [e]) : encodeSliceCmd slice = e.2.localPath := by
  simp [encodeSliceCmd, segmentPaths, h]

/-- In file mode a slice with several segments contributes a quoted merge command. -/
theorem encodeSliceCmd_several (slice : TimeSlice) (h : 2 ≤ slice.segments.length) :
    encodeSliceCmd slice =
      "\"| sox -m " ++ stringsJoin (segmentPaths slice) " " ++ " -p\"" := by
  have hne : ¬ slice.segments.length = 1 := by omega
  simp [encodeSliceCmd, segmentPaths, hne, String.append_assoc]

/-- A slice built by hand that holds no segment: file mode gives it the merge command with
the flag "-m", streaming mode a command without the flag. The slice builder returns no
such slice. -/
theorem DownloadAndEncode_merges_empty_slice :
    (NewTimeSlice 0 10).segments.length = 0 ∧
      encodeSliceCmd (NewTimeSlice 0 10) = "\"| sox -m  -p\"" ∧
      (DownloadAndEncode "/tmp" [NewTimeSlice 0 10] rvSingle).map (fun r => r.soxCmd) =
        some "sox \"| sox -m  -p\" -p trim 1.0000 4.0000" ∧
      (DownloadAndStream [NewTimeSlice 0 10] rvSingle).map
          (fun cs => cs.map (fun c => c.soxArgs)) =
        some [["-t", "wav", "-p", "trim", "1.0000"]] := by
  set_option maxRecDepth 8000 in decide

/-- C8: every command pair built by streaming mode takes its transcoder arguments from the
format of the request: the AAC encoder at 256k in an m4a container for "aac" and "m4a", the
Vorbis encoder at quality 6 in an ogg container for "ogg", the MP3 fallback at 256k for
every other format; the fallback is taken, and the warning logged, exactly for the formats
that are none of the three. -/
theorem DownloadAndStream_format (slices : List TimeSlice) (rv : RequestVars) :
    ∃ cmds, DownloadAndStream slices rv = some cmds ∧ cmds.length = slices.length ∧
      ∀ c ∈ cmds,
        ((rv.Format = "aac" ∨ rv.Format = "m4a") → c.ffmpegArgs =
            ["-i", "-", "-c:a", "libfdk_aac", "-b:a", "256k", "-f", "m4a", "pipe:"]) ∧
        (rv.Format = "ogg" → c.ffmpegArgs =
            ["-i", "-", "-c:a", "libvorbis", "-qscale:a", "6", "-f", "ogg", "pipe:"]) ∧
        ((rv.Format ≠ "aac" ∧ rv.Format ≠ "m4a" ∧ rv.Format ≠ "ogg") → c.ffmpegArgs =
            ["-i", "-", "-f", "mp3", "-ab", "256k", "pipe:"]) ∧
        (c.ffmpegArgs = ["-i", "-", "-f", "mp3", "-ab", "256k", "pipe:"] ↔
            (rv.Format ≠ "aac" ∧ rv.Format ≠ "m4a" ∧ rv.Format ≠ "ogg")) ∧
        (unsupportedWarning ∈ c.logged ↔
            (rv.Format ≠ "aac" ∧ rv.Format ≠ "m4a" ∧ rv.Format ≠ "ogg")) := by
  obtain ⟨cmds, hrun, hlen, hall⟩ := DownloadAndStream_spec slices rv
  refine ⟨cmds, hrun, hlen, ?_⟩
  intro c hc
  obtain ⟨i, hi, hci⟩ := List.getElem_of_mem hc
  have hi2 : i < slices.length := by omega
  obtain ⟨trim, -, hcmd⟩ := hall i slices[i] (List.getElem?_eq_getElem hi2)
  rw [List.getElem?_eq_getElem hi, hci] at hcmd
  have hceq : c = streamCommandOf slices[i] rv trim := Option.some.inj hcmd
  have hargs : c.ffmpegArgs = (streamFfmpegArgs rv).1 := by rw [hceq]; rfl
  have hlog : c.logged = (streamFfmpegArgs rv).2 := by rw [hceq]; rfl
  rw [hargs, hlog]
  unfold streamFfmpegArgs AAC M4A OGG
  by_cases h1 : rv.Format = "aac"
  · simp [h1]
  · by_cases h2 : rv.Format = "m4a"
    · simp [h2]
    · by_cases h3 : rv.Format = "ogg"
      · simp [h3]
      · simp [h1, h2, h3]

/-- File mode trim of a non-empty slice list. -/
theorem soxBulkTrimArgs_cons (rv : RequestVars) (s : TimeSlice) (rest : List TimeSlice) :
    soxBulkTrimArgs rv (s :: rest) =
      some ["trim",
        formatSeconds (if rv.Start > s.start then wrap64 (rv.Start - s.start) else 0),
        formatSeconds rv.Duration] := by
  simp [soxBulkTrimArgs]

/-- C9, as stated, fails: for the formats "ogg" and "mp3" file mode builds the AAC
arguments at 96k in an mp4 container, neither the Vorbis encoder nor the MP3 fallback. -/
theorem DownloadAndEncode_format_counterexample :
    (DownloadAndEncode "/tmp" slicesOne { rvSingle with Format := "ogg" }).map
        (fun r => r.ffmpegArgs) =
      some ["-i", "-", "-strict", "-2", "-c:a", "aac", "-b:a", "96k", "-f", "mp4",
        "/tmp/apollo-audio/clips/channels_14_1000_4000.m4a", "-y"] ∧
    (DownloadAndEncode "/tmp" slicesOne { rvSingle with Format := "mp3" }).map
        (fun r => r.ffmpegArgs) =
      some ["-i", "-", "-strict", "-2", "-c:a", "aac", "-b:a", "96k", "-f", "mp4",
        "/tmp/apollo-audio/clips/channels_14_1000_4000.m4a", "-y"] := by
  decide

/-- On a non-empty slice list file mode returns, with the output file it computed and the
fixed transcoder arguments. -/
theorem DownloadAndEncode_some (tmp : String) (slices : List TimeSlice) (rv : RequestVars)
    (hne : slices ≠ []) :
    ∃ r, DownloadAndEncode tmp slices rv = some r ∧ r.outFile = encodeOutFile tmp rv ∧
      r.ffmpegArgs = ["-i", "-", "-strict", "-2", "-c:a", "aac", "-b:a", "96k", "-f", "mp4",
        encodeOutFile tmp rv, "-y"] := by
  cases slices with
  | nil => exact absurd rfl hne
  | cons s rest =>
    refine ⟨{ soxCmd := stringsJoin (["sox"] ++ List.map encodeSliceCmd (s :: rest) ++
                ["-p"] ++ ["trim",
                  formatSeconds
                    (if rv.Start > s.start then wrap64 (rv.Start - s.start) else 0),
                  formatSeconds rv.Duration]) " ",
              ffmpegArgs := ["-i", "-", "-strict", "-2", "-c:a", "aac", "-b:a", "96k", "-f",
                "mp4", encodeOutFile tmp rv] ++ ["-y"],
              outFile := encodeOutFile tmp rv }, ?_, rfl, rfl⟩
    simp only [DownloadAndEncode, soxBulkTrimArgs_cons]

/-- C9, amended: for every non-empty slice list and every request, whatever its format,
file mode builds the AAC encoder arguments at 96k in an mp4 container, writing to the
output file, with forced overwrite. -/
theorem DownloadAndEncode_ffmpegArgs (tmp : String) (slices : List TimeSlice)
    (rv : RequestVars) (hne : slices ≠ []) :
    ∃ r, DownloadAndEncode tmp slices rv = some r ∧
      r.ffmpegArgs = ["-i", "-", "-strict", "-2", "-c:a", "aac", "-b:a", "96k", "-f", "mp4",
        encodeOutFile tmp rv, "-y"] ∧
      ∀ f : String, (DownloadAndEncode tmp slices { rv with Format := f }).map
        (fun q => q.ffmpegArgs) = some r.ffmpegArgs := by
  obtain ⟨r, hr, -, hargs⟩ := DownloadAndEncode_some tmp slices rv hne
  refine ⟨r, hr, hargs, ?_⟩
  intro f
  obtain ⟨q, hq, -, hqa⟩ := DownloadAndEncode_some tmp slices { rv with Format := f } hne
  rw [hq, hargs]
  simpa [encodeOutFile] using hqa

theorem DownloadAndEncode_ffmpegArgs_witness :
    ∃ r, DownloadAndEncode "/tmp" slicesOne rvSingle = some r ∧
      r.ffmpegArgs = ["-i", "-", "-strict", "-2", "-c:a", "aac", "-b:a", "96k", "-f", "mp4",
        encodeOutFile "/tmp" rvSingle, "-y"] ∧
      ∀ f : String, (DownloadAndEncode "/tmp" slicesOne { rvSingle with Format := f }).map
        (fun q => q.ffmpegArgs) = some r.ffmpegArgs :=
  DownloadAndEncode_ffmpegArgs "/tmp" slicesOne rvSingle (by decide)

/-- C10, as stated, fails: two requests with the same mission, start and duration whose
channel lists are permutations of one another get different output paths. -/
theorem DownloadAndEncode_outFile_counterexample :
    List.Perm ["14", "15"] ["15", "14"] ∧
      (DownloadAndEncode "/tmp" slicesOne { rvSingle with Channels := ["14", "15"] }).map
          (fun r => r.outFile) =
        some "/tmp/apollo-audio/clips/channels_14.15_1000_4000.m4a" ∧
      (DownloadAndEncode "/tmp" slicesOne { rvSingle with Channels := ["15", "14"] }).map
          (fun r => r.outFile) =
        some "/tmp/apollo-audio/clips/channels_15.14_1000_4000.m4a" ∧
      "/tmp/apollo-audio/clips/channels_14.15_1000_4000.m4a" ≠
        "/tmp/apollo-audio/clips/channels_15.14_1000_4000.m4a" := by
  refine ⟨List.Perm.swap _ _ _, by decide, by decide, by decide⟩

/-- C10, amended: two requests with the same mission, start and duration and the same
channel list in the same order get the same output file name, and on non-empty slice lists
file mode returns that same path for both, whatever their formats and slices. -/
theorem DownloadAndEncode_outFile_eq (tmp : String) (rv1 rv2 : RequestVars)
    (slices1 slices2 : List TimeSlice)
    (_hm : rv1.Mission = rv2.Mission) (hs : rv1.Start = rv2.Start)
    (hd : rv1.Duration = rv2.Duration) (hc : rv1.Channels = rv2.Channels)
    (h1 : slices1 ≠ []) (h2 : slices2 ≠ []) :
    encodeOutFile tmp rv1 = encodeOutFile tmp rv2 ∧
      ∃ r1 r2, DownloadAndEncode tmp slices1 rv1 = some r1 ∧
        DownloadAndEncode tmp slices2 rv2 = some r2 ∧ r1.outFile = r2.outFile := by
  have hname : encodeOutFile tmp rv1 = encodeOutFile tmp rv2 := by
    simp [encodeOutFile, hs, hd, hc]
  obtain ⟨r1, hr1, ho1, -⟩ := DownloadAndEncode_some tmp slices1 rv1 h1
  obtain ⟨r2, hr2, ho2, -⟩ := DownloadAndEncode_some tmp slices2 rv2 h2
  exact ⟨hname, r1, r2, hr1, hr2, by rw [ho1, ho2, hname]⟩

theorem DownloadAndEncode_outFile_eq_witness :
    encodeOutFile "/tmp" rvSingle = encodeOutFile "/tmp" { rvSingle with Format := "ogg" } ∧
      ∃ r1 r2, DownloadAndEncode "/tmp" slicesOne rvSingle = some r1 ∧
        DownloadAndEncode "/tmp" [NewTimeSlice 0 10] { rvSingle with Format := "ogg" } =
          some r2 ∧ r1.outFile = r2.outFile :=
  DownloadAndEncode_outFile_eq "/tmp" rvSingle { rvSingle with Format := "ogg" }
    slicesOne [NewTimeSlice 0 10] rfl rfl rfl rfl (by decide) (by decide)

/-! ## The row loop: invariants -/

theorem mapSet_of_not_mem (m : List (Int × AudioSegment)) (k : Int) (v : AudioSegment)
    (h : k ∉ m.map Prod.fst) : mapSet m k v = m ++ [(k, v)] := by
  induction m with
  | nil => rfl
  | cons e rest ih =>
    simp only [List.map_cons, List.mem_cons, not_or] at h
    have hne : ¬ e.1 = k := fun he => h.1 he.symm
    simp [mapSet, hne, ih h.2]

theorem mapSet_keys_nodup (m : List (Int × AudioSegment)) (k : Int) (v : AudioSegment)
    (h : (m.map Prod.fst).Nodup) : ((mapSet m k v).map Prod.fst).Nodup := by
  induction m with
  | nil => simp [mapSet]
  | cons e rest ih =>
    simp only [List.map_cons, List.nodup_cons] at h
    by_cases he : e.1 = k
    · simp only [mapSet, he, if_true, List.map_cons, List.nodup_cons]
      exact ⟨he ▸ h.1, h.2⟩
    · simp only [mapSet, he, if_false, List.map_cons, List.nodup_cons]
      refine ⟨?_, ih h.2⟩
      intro hmem
      have hsub : ∀ x, x ∈ (mapSet rest k v).map Prod.fst → x = k ∨ x ∈ rest.map Prod.fst := by
        intro x
        clear ih h hmem
        induction rest with
        | nil => simp [mapSet]
        | cons f rest ih2 =>
          by_cases hf : f.1 = k
          · simp only [mapSet, hf, if_true, List.map_cons, List.mem_cons]
            intro hx
            rcases hx with hx | hx
            · exact Or.inl hx
            · exact Or.inr (Or.inr hx)
          · simp only [mapSet, hf, if_false, List.map_cons, List.mem_cons]
            intro hx
            rcases hx with hx | hx
            · exact Or.inr (Or.inl hx)
            · rcases ih2 hx with h3 | h3
              · exact Or.inl h3
              · exact Or.inr (Or.inr h3)
      rcases hsub _ hmem with h3 | h3
      · exact he h3
      · exact h.1 h3

theorem addToSlice_bounds (slices : List TimeSlice) (segment : AudioSegment) :
    (addToSlice slices segment).map TimeSlice.bounds = slices.map TimeSlice.bounds := by
  induction slices with
  | nil => rfl
  | cons a rest ih =>
    by_cases h : segment.start = a.start ∧ segment.end_ = a.end_
    · simp [addToSlice, h, TimeSlice.bounds]
    · simp [addToSlice, h, ih]

theorem addToSlice_starts (slices : List TimeSlice) (segment : AudioSegment) :
    (addToSlice slices segment).map (fun s => s.start) = slices.map (fun s => s.start) := by
  have h := congrArg (List.map Prod.fst) (addToSlice_bounds slices segment)
  simpa [List.map_map, Function.comp_def, TimeSlice.bounds] using h

theorem addToSlice_of_no_match (slices : List TimeSlice) (segment : AudioSegment)
    (h : ∀ a ∈ slices, a.bounds ≠ (segment.start, segment.end_)) :
    addToSlice slices segment = slices := by
  induction slices with
  | nil => rfl
  | cons a rest ih =>
    have ha : ¬ (segment.start = a.start ∧ segment.end_ = a.end_) := by
      intro hm
      exact h a (List.mem_cons_self _ _) (by simp [TimeSlice.bounds, hm.1, hm.2])
    simp only [addToSlice, ha, if_false]
    rw [ih (fun b hb => h b (List.mem_cons_of_mem _ hb))]

theorem addToSlice_append_of_no_match (slices tail : List TimeSlice) (segment : AudioSegment)
    (h : ∀ a ∈ slices, a.bounds ≠ (segment.start, segment.end_)) :
    addToSlice (slices ++ tail) segment = slices ++ addToSlice tail segment := by
  induction slices with
  | nil => rfl
  | cons a rest ih =>
    have ha : ¬ (segment.start = a.start ∧ segment.end_ = a.end_) := by
      intro hm
      exact h a (List.mem_cons_self _ _) (by simp [TimeSlice.bounds, hm.1, hm.2])
    have ih2 := ih (fun b hb => h b (List.mem_cons_of_mem _ hb))
    show addToSlice (a :: (rest ++ tail)) segment = a :: (rest ++ addToSlice tail segment)
    simp only [addToSlice, ha, if_false, ih2]

/-- With pairwise different bounds the segment is stored in every slice with its bounds,
that is in the only one. -/
theorem addToSlice_eq_map (slices : List TimeSlice) (segment : AudioSegment)
    (hnd : (slices.map TimeSlice.bounds).Nodup) :
    addToSlice slices segment =
      slices.map (fun a =>
        if a.bounds = (segment.start, segment.end_) then a.store segment else a) := by
  induction slices with
  | nil => rfl
  | cons a rest ih =>
    simp only [List.map_cons, List.nodup_cons] at hnd
    by_cases h : segment.start = a.start ∧ segment.end_ = a.end_
    · have hb : a.bounds = (segment.start, segment.end_) := by
        simp [TimeSlice.bounds, h.1, h.2]
      have hrest : ∀ b ∈ rest, b.bounds ≠ (segment.start, segment.end_) := by
        intro b hb2 hbb
        exact hnd.1 (List.mem_map.mpr ⟨b, hb2, by rw [hbb, hb]⟩)
      have hmap : rest.map (fun a =>
          if a.bounds = (segment.start, segment.end_) then a.store segment else a) = rest := by
        conv_rhs => rw [← List.map_id rest]
        apply List.map_congr_left
        intro b hb2
        simp [hrest b hb2]
      rw [List.map_cons, hmap, if_pos hb]
      simp only [addToSlice, h, and_self, if_true, TimeSlice.store]
    · have hb : ¬ a.bounds = (segment.start, segment.end_) := by
        intro hb
        simp only [TimeSlice.bounds, Prod.mk.injEq] at hb
        exact h ⟨hb.1.symm, hb.2.symm⟩
      simp only [addToSlice, h, if_false, List.map_cons, hb, ih hnd.2]

theorem scanOrdered_init : ScanOrdered { slices := [], lastStart := -1 } := by
  simp [ScanOrdered]

theorem scanRow_ordered (tmp : String) (rv : RequestVars) (st : ScanState)
    (row : Option Row) (h : ScanOrdered st) : ScanOrdered (scanRow tmp rv st row) := by
  cases row with
  | none => exact h
  | some r =>
    obtain ⟨hpw, hle, hlast⟩ := h
    by_cases hgt : r.met_start > st.lastStart
    · simp only [scanRow, hgt, if_true, ScanOrdered, addToSlice_starts]
      simp only [List.map_append, List.map_cons, List.map_nil, NewTimeSlice]
      refine ⟨?_, ?_, ?_⟩
      · rw [List.pairwise_append]
        refine ⟨hpw, by simp, ?_⟩
        intro x hx y hy
        simp only [List.mem_singleton] at hy
        have := hle x hx
        omega
      · intro x hx
        simp only [List.mem_append, List.mem_singleton] at hx
        rcases hx with hx | hx
        · have := hle x hx
          omega
        · omega
      · right
        simp
    · simp only [scanRow, hgt, if_false, ScanOrdered, addToSlice_starts]
      exact ⟨hpw, hle, hlast⟩

theorem foldl_scanRow_ordered (tmp : String) (rv : RequestVars) (rows : List (Option Row)) :
    ∀ st, ScanOrdered st → ScanOrdered (rows.foldl (scanRow tmp rv) st) := by
  induction rows with
  | nil => intro st h; exact h
  | cons row rest ih =>
    intro st h
    exact ih _ (scanRow_ordered tmp rv st row h)

theorem scanOrdered_nodup_bounds (st : ScanState) (h : ScanOrdered st) :
    (st.slices.map TimeSlice.bounds).Nodup := by
  have hnd : (st.slices.map (fun s => s.start)).Nodup :=
    h.1.imp (fun hxy => ne_of_lt hxy)
  have he : st.slices.map (fun s => s.start) =
      (st.slices.map TimeSlice.bounds).map Prod.fst := by
    simp [List.map_map, Function.comp_def, TimeSlice.bounds]
  rw [he] at hnd
  exact List.Nodup.of_map _ hnd

theorem scanInv_init (tmp : String) (rv : RequestVars) :
    ScanInv tmp rv [] { slices := [], lastStart := -1 } := by
  refine ⟨scanOrdered_init, by simp, by simp⟩

theorem scanRow_inv (tmp : String) (rv : RequestVars) (done : List Row) (r : Row)
    (st : ScanState) (hinv : ScanInv tmp rv done st)
    (hsorted : ∀ a ∈ done, a.met_start ≤ r.met_start) (hnn : 0 ≤ r.met_start)
    (hal : ∀ a ∈ done, a.met_start = r.met_start → a.met_end = r.met_end)
    (hdist : ∀ a ∈ done, ¬ (a.bounds = r.bounds ∧ a.channel_id = r.channel_id)) :
    ScanInv tmp rv (done ++ [r]) (scanRow tmp rv st (some r)) := by
  have hord' := scanRow_ordered tmp rv st (some r) hinv.1
  obtain ⟨hord, hb, hc⟩ := hinv
  have hnd := scanOrdered_nodup_bounds st hord
  obtain ⟨hpw, hle, hlast⟩ := hord
  have hsegb : ((rowSegment tmp rv r).start, (rowSegment tmp rv r).end_) = r.bounds := rfl
  have hsegc : (rowSegment tmp rv r).channel_id = r.channel_id := rfl
  by_cases hgt : r.met_start > st.lastStart
  · -- a new slice is opened and receives the segment
    have hno : ∀ a ∈ st.slices, a.bounds ≠ r.bounds := by
      intro a ha hab
      have h1 := hle a.start (List.mem_map.mpr ⟨a, ha, rfl⟩)
      have h2 : a.start = r.met_start := congrArg Prod.fst hab
      omega
    have hnodone : ∀ a ∈ done, a.bounds ≠ r.bounds := by
      intro a ha hab
      have h1 : a.bounds ∈ st.slices.map TimeSlice.bounds :=
        (hb _).mpr (List.mem_map.mpr ⟨a, ha, rfl⟩)
      obtain ⟨s, hs, hsb⟩ := List.mem_map.mp h1
      exact hno s hs (hsb.trans hab)
    have hstep : scanRow tmp rv st (some r) =
        { slices := st.slices ++
            [{ start := r.met_start, end_ := r.met_end,
               segments := [(r.channel_id, rowSegment tmp rv r)] }],
          lastStart := r.met_start } := by
      have h1 := addToSlice_append_of_no_match st.slices
        [NewTimeSlice r.met_start r.met_end] (rowSegment tmp rv r) (by rw [hsegb]; exact hno)
      simp only [scanRow, hgt, if_true, h1]
      simp [addToSlice, NewTimeSlice, rowSegment, mapSet]
    rw [hstep] at hord' ⊢
    refine ⟨hord', ?_, ?_⟩
    · intro p
      simp only [List.map_append, List.mem_append, hb p, List.map_cons, List.map_nil,
        List.mem_singleton, TimeSlice.bounds, Row.bounds]
    · intro s hs
      simp only [List.mem_append, List.mem_singleton] at hs
      rcases hs with hs | hs
      · refine ⟨(hc s hs).1, ?_⟩
        intro ch seg
        rw [(hc s hs).2 ch seg]
        constructor
        · rintro ⟨a, ha, h⟩
          exact ⟨a, List.mem_append_left _ ha, h⟩
        · rintro ⟨a, ha, h⟩
          simp only [List.mem_append, List.mem_singleton] at ha
          rcases ha with ha | ha
          · exact ⟨a, ha, h⟩
          · subst ha
            exact absurd h.1.symm (hno s hs)
      · subst hs
        refine ⟨by simp, ?_⟩
        intro ch seg
        simp only [List.mem_singleton, Prod.mk.injEq]
        constructor
        · rintro ⟨h1, h2⟩
          exact ⟨r, by simp, rfl, h1.symm, h2⟩
        · rintro ⟨a, ha, h1, h2, h3⟩
          simp only [List.mem_append, List.mem_singleton] at ha
          rcases ha with ha | ha
          · exact absurd h1 (hnodone a ha)
          · subst ha
            exact ⟨h2.symm, h3⟩
  · -- the segment goes to the slice opened for its start
    have hin : r.bounds ∈ done.map Row.bounds := by
      rcases hlast with hl | hl
      · omega
      · obtain ⟨a, ha, hst⟩ := List.mem_map.mp hl
        have hab : a.bounds ∈ done.map Row.bounds :=
          (hb _).mp (List.mem_map.mpr ⟨a, ha, rfl⟩)
        obtain ⟨q, hq, hqb⟩ := List.mem_map.mp hab
        have hqs : q.met_start = a.start := congrArg Prod.fst hqb
        have h1 := hsorted q hq
        have hst' : a.start = st.lastStart := hst
        have heq : q.met_start = r.met_start := by omega
        have hend := hal q hq heq
        refine List.mem_map.mpr ⟨q, hq, ?_⟩
        simp [Row.bounds, heq, hend]
    have hstep : scanRow tmp rv st (some r) =
        { slices := st.slices.map (fun a =>
            if a.bounds = r.bounds then a.store (rowSegment tmp rv r) else a),
          lastStart := st.lastStart } := by
      simp only [scanRow, hgt, if_false, addToSlice_eq_map _ _ hnd, hsegb]
    have hbs : (st.slices.map (fun a =>
        if a.bounds = r.bounds then a.store (rowSegment tmp rv r) else a)).map
          TimeSlice.bounds = st.slices.map TimeSlice.bounds := by
      rw [List.map_map]
      apply List.map_congr_left
      intro a _
      by_cases hab : a.bounds = r.bounds
      · simp only [Function.comp_apply, if_pos hab]
        rfl
      · simp only [Function.comp_apply, if_neg hab]
    rw [hstep] at hord' ⊢
    refine ⟨hord', ?_, ?_⟩
    · intro p
      simp only [hbs, hb p, List.map_append, List.mem_append, List.map_cons, List.map_nil,
        List.mem_singleton]
      constructor
      · intro h
        exact Or.inl h
      · intro h
        rcases h with h | h
        · exact h
        · rw [h]
          exact hin
    · intro s' hs'
      simp only [List.mem_map] at hs'
      obtain ⟨s, hs, hss⟩ := hs'
      by_cases hab : s.bounds = r.bounds
      · rw [if_pos hab] at hss
        subst hss
        have hkey : r.channel_id ∉ s.segments.map Prod.fst := by
          intro hk
          obtain ⟨e, he, hek⟩ := List.mem_map.mp hk
          have he' : (r.channel_id, e.2) ∈ s.segments := by
            rw [← hek]
            exact he
          obtain ⟨a, ha, h1, h2, -⟩ := ((hc s hs).2 _ _).mp he'
          exact hdist a ha ⟨h1.trans hab, h2⟩
        have hsegs : (s.store (rowSegment tmp rv r)).segments =
            s.segments ++ [(r.channel_id, rowSegment tmp rv r)] := by
          simp only [TimeSlice.store, hsegc]
          exact mapSet_of_not_mem _ _ _ hkey
        have hsb : (s.store (rowSegment tmp rv r)).bounds = s.bounds := rfl
        refine ⟨?_, ?_⟩
        · simp only [TimeSlice.store]
          exact mapSet_keys_nodup _ _ _ (hc s hs).1
        · intro ch seg
          rw [hsegs, hsb, List.mem_append, (hc s hs).2 ch seg]
          simp only [List.mem_singleton, Prod.mk.injEq]
          constructor
          · rintro (⟨a, ha, h⟩ | ⟨h1, h2⟩)
            · exact ⟨a, List.mem_append_left _ ha, h⟩
            · exact ⟨r, by simp, hab.symm, h1.symm, h2⟩
          · rintro ⟨a, ha, h1, h2, h3⟩
            simp only [List.mem_append, List.mem_singleton] at ha
            rcases ha with ha | ha
            · exact Or.inl ⟨a, ha, h1, h2, h3⟩
            · subst ha
              exact Or.inr ⟨h2.symm, h3⟩
      · rw [if_neg hab] at hss
        subst hss
        refine ⟨(hc s hs).1, ?_⟩
        intro ch seg
        rw [(hc s hs).2 ch seg]
        constructor
        · rintro ⟨a, ha, h⟩
          exact ⟨a, List.mem_append_left _ ha, h⟩
        · rintro ⟨a, ha, h⟩
          simp only [List.mem_append, List.mem_singleton] at ha
          rcases ha with ha | ha
          · exact ⟨a, ha, h⟩
          · subst ha
            exact absurd h.1.symm hab

/-! ## The row loop: statements -/

theorem foldl_scanRow_inv (tmp : String) (rv : RequestVars) (rows : List Row)
    (hs : RowsSorted rows) (hd : RowsDistinct rows) (ha : RowsAligned rows)
    (hn : RowsNonneg rows) :
    ScanInv tmp rv rows
      ((rows.map some).foldl (scanRow tmp rv) { slices := [], lastStart := -1 }) := by
  induction rows using List.reverseRecOn with
  | nil => exact scanInv_init tmp rv
  | append_singleton done r ih =>
    unfold RowsSorted at hs
    unfold RowsDistinct at hd
    unfold RowsAligned at ha
    rw [List.pairwise_append] at hs hd ha
    have hn1 : RowsNonneg done := fun a h => hn a (List.mem_append_left _ h)
    have ih2 := ih hs.1 hd.1 ha.1 hn1
    rw [List.map_append, List.foldl_append]
    simp only [List.map_cons, List.map_nil, List.foldl_cons, List.foldl_nil]
    apply scanRow_inv tmp rv done r _ ih2
    · intro a h
      exact hs.2.2 a h r (List.mem_singleton_self r)
    · exact hn r (by simp)
    · intro a h
      exact ha.2.2 a h r (List.mem_singleton_self r)
    · intro a h
      exact hd.2.2 a h r (List.mem_singleton_self r)

/-- C1, as stated, fails: of two rows with the same start and different ends only the
first gets a slice, and a row that starts before time zero gets none. -/
theorem GetRequestSlices_counterexample :
    (RowsSorted rowsUnaligned ∧ RowsDistinct rowsUnaligned ∧
      (GetRequestSlices "/tmp" rvPair (rowsUnaligned.map some)).map TimeSlice.bounds =
        [(0, 10)] ∧
      ¬ SliceBuilderSpec "/tmp" rvPair rowsUnaligned
        (GetRequestSlices "/tmp" rvPair (rowsUnaligned.map some))) ∧
    (RowsSorted rowsNegative ∧ RowsDistinct rowsNegative ∧
      GetRequestSlices "/tmp" rvPair (rowsNegative.map some) = [] ∧
      ¬ SliceBuilderSpec "/tmp" rvPair rowsNegative
        (GetRequestSlices "/tmp" rvPair (rowsNegative.map some))) := by
  have e1 : (GetRequestSlices "/tmp" rvPair (rowsUnaligned.map some)).map TimeSlice.bounds =
      [(0, 10)] := by decide
  have e2 : GetRequestSlices "/tmp" rvPair (rowsNegative.map some) = [] := by decide
  refine ⟨⟨by unfold RowsSorted; decide, by unfold RowsDistinct; decide, e1, ?_⟩,
    ⟨by unfold RowsSorted; decide, by unfold RowsDistinct; decide, e2, ?_⟩⟩
  · intro h
    have h2 := (h.2.1 (0, 20)).mpr (by decide)
    rw [e1] at h2
    revert h2
    decide
  · intro h
    have h2 := (h.2.1 (-5, 10)).mpr (by decide)
    rw [e2] at h2
    revert h2
    decide

/-- C1, amended: for rows ordered by start ascending, none starting before time zero, rows
with the same start having the same end, with at most one row per channel for each pair
of bounds, the row loop returns exactly one slice for each pair of bounds among the rows,
each holding exactly the segments of the rows with its bounds, keyed by channel, in
ascending start order. -/
theorem GetRequestSlices_spec (tmp : String) (rv : RequestVars) (rows : List Row)
    (hs : RowsSorted rows) (hd : RowsDistinct rows) (ha : RowsAligned rows)
    (hn : RowsNonneg rows) :
    SliceBuilderSpec tmp rv rows (GetRequestSlices tmp rv (rows.map some)) := by
  obtain ⟨hord, hb, hc⟩ := foldl_scanRow_inv tmp rv rows hs hd ha hn
  refine ⟨scanOrdered_nodup_bounds _ hord, hb, hc, ?_⟩
  exact hord.1.imp (fun hxy => le_of_lt hxy)

theorem GetRequestSlices_spec_witness :
    (GetRequestSlices "/tmp" rvPair (rowsAligned.map some)).map
        (fun s => (s.start, s.end_, s.segments.map Prod.fst)) =
      [(0, 3000, [14, 15]), (3000, 7000, [14])] ∧
    SliceBuilderSpec "/tmp" rvPair rowsAligned
      (GetRequestSlices "/tmp" rvPair (rowsAligned.map some)) :=
  ⟨by decide,
    GetRequestSlices_spec "/tmp" rvPair rowsAligned (by unfold RowsSorted; decide)
      (by unfold RowsDistinct; decide) (by unfold RowsAligned; decide)
      (by unfold RowsNonneg; decide)⟩

/-- Rows whose scan fails are skipped: the loop returns what it returns on the rows that
were scanned. -/
theorem GetRequestSlices_skip_failed (tmp : String) (rv : RequestVars)
    (rows : List (Option Row)) :
    GetRequestSlices tmp rv rows =
      GetRequestSlices tmp rv ((rows.filterMap id).map some) := by
  have key : ∀ (l : List (Option Row)) (st : ScanState),
      l.foldl (scanRow tmp rv) st =
        ((l.filterMap id).map some).foldl (scanRow tmp rv) st := by
    intro l
    induction l with
    | nil => intro st; rfl
    | cons row rest ih =>
      intro st
      cases row with
      | none => simpa [scanRow] using ih st
      | some r => simpa using ih (scanRow tmp rv st (some r))
  unfold GetRequestSlices
  rw [key]

/-! ## Assembly: output name and empty slice list -/

/-- C11, as stated, fails: two requests that agree on channel list, start and duration and
have different missions get the same output path. -/
theorem DownloadAndEncode_mission_counterexample :
    rvSingle.Mission ≠ rvOtherMission.Mission ∧
      rvSingle.Channels = rvOtherMission.Channels ∧
      rvSingle.Start = rvOtherMission.Start ∧
      rvSingle.Duration = rvOtherMission.Duration ∧
      (DownloadAndEncode "/tmp" slicesOne rvSingle).map (fun r => r.outFile) =
        some "/tmp/apollo-audio/clips/channels_14_1000_4000.m4a" ∧
      (DownloadAndEncode "/tmp" slicesOne rvOtherMission).map (fun r => r.outFile) =
        some "/tmp/apollo-audio/clips/channels_14_1000_4000.m4a" := by
  decide

/-- C11, amended: the output file name of file mode is derived from the channel list, the
start and the duration alone: every two requests that agree on channel list, start and
duration get the same output path, whatever their missions and formats, and on non-empty
slice lists file mode returns that one path for both. -/
theorem DownloadAndEncode_outFile_mission (tmp : String) (rv1 rv2 : RequestVars)
    (slices1 slices2 : List TimeSlice) (hc : rv1.Channels = rv2.Channels)
    (hs : rv1.Start = rv2.Start) (hd : rv1.Duration = rv2.Duration)
    (hne1 : slices1 ≠ []) (hne2 : slices2 ≠ []) :
    encodeOutFile tmp rv1 = encodeOutFile tmp rv2 ∧
      ∃ r1 r2, DownloadAndEncode tmp slices1 rv1 = some r1 ∧
        DownloadAndEncode tmp slices2 rv2 = some r2 ∧
        r1.outFile = r2.outFile ∧ r1.outFile = encodeOutFile tmp rv1 := by
  have hname : encodeOutFile tmp rv1 = encodeOutFile tmp rv2 := by
    simp only [encodeOutFile, hc, hs, hd]
  obtain ⟨r1, hr1, ho1, -⟩ := DownloadAndEncode_some tmp slices1 rv1 hne1
  obtain ⟨r2, hr2, ho2, -⟩ := DownloadAndEncode_some tmp slices2 rv2 hne2
  exact ⟨hname, r1, r2, hr1, hr2, by rw [ho1, ho2, hname], ho1⟩

theorem DownloadAndEncode_outFile_mission_witness :
    rvSingle.Mission ≠ rvOtherMissionOgg.Mission ∧
      rvSingle.Format ≠ rvOtherMissionOgg.Format ∧
      encodeOutFile "/tmp" rvSingle = encodeOutFile "/tmp" rvOtherMissionOgg ∧
      ∃ r1 r2, DownloadAndEncode "/tmp" slicesOne rvSingle = some r1 ∧
        DownloadAndEncode "/tmp" slicesPair rvOtherMissionOgg = some r2 ∧
        r1.outFile = r2.outFile ∧ r1.outFile = encodeOutFile "/tmp" rvSingle :=
  ⟨by decide, by decide,
    DownloadAndEncode_outFile_mission "/tmp" rvSingle rvOtherMissionOgg slicesOne slicesPair
      (by decide) (by decide) (by decide) (by decide) (by decide)⟩

/-- C12 (empty slice list): streaming mode builds no command and returns; file mode
panics, indexing the first slice of the empty list in `soxBulkTrimArgs`, whatever the
request, and so returns neither a path nor a distinct outcome. -/
theorem DownloadAndEncode_empty_panics (tmp : String) (rv : RequestVars) :
    DownloadAndStream [] rv = some [] ∧ soxBulkTrimArgs rv [] = none ∧
      DownloadAndEncode tmp [] rv = none := by
  refine ⟨rfl, rfl, rfl⟩

/-! ## The row loop: rows in any order -/

theorem mapSet_mem (m : List (Int × AudioSegment)) (k : Int) (v : AudioSegment)
    (e : Int × AudioSegment) (h : e ∈ mapSet m k v) : e ∈ m ∨ e = (k, v) := by
  induction m with
  | nil =>
    simp only [mapSet, List.mem_singleton] at h
    exact Or.inr h
  | cons f rest ih =>
    by_cases hf : f.1 = k
    · simp only [mapSet, hf, if_true, List.mem_cons] at h
      rcases h with h | h
      · exact Or.inr h
      · exact Or.inl (List.mem_cons_of_mem _ h)
    · simp only [mapSet, hf, if_false, List.mem_cons] at h
      rcases h with h | h
      · exact Or.inl (h ▸ List.mem_cons_self _ _)
      · rcases ih h with h2 | h2
        · exact Or.inl (List.mem_cons_of_mem _ h2)
        · exact Or.inr h2

theorem mapSet_ne_nil (m : List (Int × AudioSegment)) (k : Int) (v : AudioSegment) :
    mapSet m k v ≠ [] := by
  cases m with
  | nil => simp [mapSet]
  | cons f rest =>
    by_cases hf : f.1 = k
    · simp [mapSet, hf]
    · simp [mapSet, hf]

/-- A slice of the list after "Add to proper slice" is a slice of the list before, or one
of them with matching bounds after the assignment. -/
theorem addToSlice_mem (slices : List TimeSlice) (segment : AudioSegment) (s : TimeSlice)
    (h : s ∈ addToSlice slices segment) :
    s ∈ slices ∨ ∃ a ∈ slices, (segment.start = a.start ∧ segment.end_ = a.end_) ∧
      s = a.store segment := by
  induction slices with
  | nil => simp [addToSlice] at h
  | cons a rest ih =>
    by_cases hm : segment.start = a.start ∧ segment.end_ = a.end_
    · simp only [addToSlice, hm, and_self, if_true, List.mem_cons] at h
      rcases h with h | h
      · exact Or.inr ⟨a, List.mem_cons_self _ _, hm, h⟩
      · exact Or.inl (List.mem_cons_of_mem _ h)
    · simp only [addToSlice, hm, if_false, List.mem_cons] at h
      rcases h with h | h
      · exact Or.inl (h ▸ List.mem_cons_self _ _)
      · rcases ih h with h2 | ⟨b, hb, hbm, hbs⟩
        · exact Or.inl (List.mem_cons_of_mem _ h2)
        · exact Or.inr ⟨b, List.mem_cons_of_mem _ hb, hbm, hbs⟩

/-- A row whose start exceeds the watermark opens a slice and is stored in it. -/
theorem scanRow_open (tmp : String) (rv : RequestVars) (st : ScanState) (r : Row)
    (hord : ScanOrdered st) (hgt : r.met_start > st.lastStart) :
    scanRow tmp rv st (some r) =
      { slices := st.slices ++
          [{ start := r.met_start, end_ := r.met_end,
             segments := [(r.channel_id, rowSegment tmp rv r)] }],
        lastStart := r.met_start } := by
  have hno : ∀ a ∈ st.slices,
      a.bounds ≠ ((rowSegment tmp rv r).start, (rowSegment tmp rv r).end_) := by
    intro a ha hab
    have h1 := hord.2.1 a.start (List.mem_map.mpr ⟨a, ha, rfl⟩)
    have h2 : a.start = r.met_start := congrArg Prod.fst hab
    omega
  have h1 := addToSlice_append_of_no_match st.slices
    [NewTimeSlice r.met_start r.met_end] (rowSegment tmp rv r) hno
  simp only [scanRow, hgt, if_true, h1]
  simp [addToSlice, NewTimeSlice, rowSegment, mapSet]

theorem scanRow_wellKeyed (tmp : String) (rv : RequestVars) (st : ScanState)
    (row : Option Row) (h : SlicesWellKeyed st.slices) :
    SlicesWellKeyed (scanRow tmp rv st row).slices := by
  cases row with
  | none => exact h
  | some r =>
    have hopened : ∀ sl : List TimeSlice, SlicesWellKeyed sl →
        SlicesWellKeyed (addToSlice sl (rowSegment tmp rv r)) := by
      intro sl hsl s hs e he
      rcases addToSlice_mem sl _ s hs with h1 | ⟨a, ha, hm, hsa⟩
      · exact hsl s h1 e he
      · subst hsa
        rcases mapSet_mem _ _ _ e he with h2 | h2
        · exact hsl a ha e h2
        · subst h2
          exact ⟨hm.1, hm.2, rfl⟩
    by_cases hgt : r.met_start > st.lastStart
    · simp only [scanRow, hgt, if_true]
      apply hopened
      intro s hs e he
      simp only [List.mem_append, List.mem_singleton] at hs
      rcases hs with hs | hs
      · exact h s hs e he
      · subst hs
        simp [NewTimeSlice] at he
    · simp only [scanRow, hgt, if_false]
      exact hopened _ h

theorem scanRow_nonempty (tmp : String) (rv : RequestVars) (st : ScanState)
    (row : Option Row) (hord : ScanOrdered st) (h : ∀ s ∈ st.slices, s.segments ≠ []) :
    ∀ s ∈ (scanRow tmp rv st row).slices, s.segments ≠ [] := by
  cases row with
  | none => exact h
  | some r =>
    by_cases hgt : r.met_start > st.lastStart
    · rw [scanRow_open tmp rv st r hord hgt]
      intro s hs
      simp only [List.mem_append, List.mem_singleton] at hs
      rcases hs with hs | hs
      · exact h s hs
      · subst hs
        simp
    · simp only [scanRow, hgt, if_false]
      intro s hs
      rcases addToSlice_mem _ _ s hs with h1 | ⟨a, -, -, hsa⟩
      · exact h s h1
      · subst hsa
        exact mapSet_ne_nil _ _ _

/-- What the loop keeps true for rows in any order. -/
theorem foldl_scanRow_general (tmp : String) (rv : RequestVars) (rows : List (Option Row)) :
    ∀ st, ScanOrdered st → SlicesWellKeyed st.slices → (∀ s ∈ st.slices, s.segments ≠ []) →
      ScanOrdered (rows.foldl (scanRow tmp rv) st) ∧
        SlicesWellKeyed (rows.foldl (scanRow tmp rv) st).slices ∧
        ∀ s ∈ (rows.foldl (scanRow tmp rv) st).slices, s.segments ≠ [] := by
  induction rows with
  | nil => intro st h1 h2 h3; exact ⟨h1, h2, h3⟩
  | cons row rest ih =>
    intro st h1 h2 h3
    exact ih _ (scanRow_ordered tmp rv st row h1) (scanRow_wellKeyed tmp rv st row h2)
      (scanRow_nonempty tmp rv st row h1 h3)

theorem GetRequestSlices_general (tmp : String) (rv : RequestVars)
    (rows : List (Option Row)) :
    ScanOrdered (rows.foldl (scanRow tmp rv) { slices := [], lastStart := -1 }) ∧
      SlicesWellKeyed (GetRequestSlices tmp rv rows) ∧
      ∀ s ∈ GetRequestSlices tmp rv rows, s.segments ≠ [] :=
  foldl_scanRow_general tmp rv rows _ scanOrdered_init
    (by intro s hs; simp at hs) (by intro s hs; simp at hs)

/-- C13: for rows in any order, every segment stored in a returned slice has the start and
the end of that slice and is stored under its own channel id. -/
theorem GetRequestSlices_segment_bounds (tmp : String) (rv : RequestVars)
    (rows : List (Option Row)) (s : TimeSlice) (k : Int) (seg : AudioSegment)
    (hs : s ∈ GetRequestSlices tmp rv rows) (he : (k, seg) ∈ s.segments) :
    seg.start = s.start ∧ seg.end_ = s.end_ ∧ seg.channel_id = k :=
  (GetRequestSlices_general tmp rv rows).2.1 s hs (k, seg) he

theorem GetRequestSlices_segment_bounds_witness :
    (rowSegment "/tmp" rvPair ⟨3000, 7000, "u3", 15⟩).start = 3000 ∧
      (rowSegment "/tmp" rvPair ⟨3000, 7000, "u3", 15⟩).end_ = 7000 ∧
      (rowSegment "/tmp" rvPair ⟨3000, 7000, "u3", 15⟩).channel_id = 15 :=
  GetRequestSlices_segment_bounds "/tmp" rvPair rowsMixed
    { start := 3000, end_ := 7000,
      segments := [(14, rowSegment "/tmp" rvPair ⟨3000, 7000, "u4", 14⟩),
        (15, rowSegment "/tmp" rvPair ⟨3000, 7000, "u3", 15⟩)] }
    15 (rowSegment "/tmp" rvPair ⟨3000, 7000, "u3", 15⟩) (by decide) (by decide)

/-- C14: for rows in any order, the starts of the returned slices increase strictly along
the sequence, so no two slices share a start. -/
theorem GetRequestSlices_starts_increasing (tmp : String) (rv : RequestVars)
    (rows : List (Option Row)) :
    ((GetRequestSlices tmp rv rows).map (fun s => s.start)).Pairwise (fun x y => x < y) ∧
      ((GetRequestSlices tmp rv rows).map (fun s => s.start)).Nodup := by
  have h := (GetRequestSlices_general tmp rv rows).1.1
  exact ⟨h, h.imp (fun hxy => ne_of_lt hxy)⟩

/-- C19: for rows in any order, every returned slice holds at least one segment, so its
merge command has at least one input path; a row whose start exceeds the watermark opens
a slice that holds exactly the segment of that row. -/
theorem GetRequestSlices_no_empty_slice (tmp : String) (rv : RequestVars)
    (rows : List (Option Row)) (s : TimeSlice) (hs : s ∈ GetRequestSlices tmp rv rows) :
    s.segments ≠ [] ∧ 1 ≤ (segmentPaths s).length ∧
      ∀ r : Row,
        r.met_start > (rows.foldl (scanRow tmp rv) { slices := [], lastStart := -1 }).lastStart →
        GetRequestSlices tmp rv (rows ++ [some r]) =
          GetRequestSlices tmp rv rows ++
            [{ start := r.met_start, end_ := r.met_end,
               segments := [(r.channel_id, rowSegment tmp rv r)] }] := by
  obtain ⟨hord, -, hne⟩ := GetRequestSlices_general tmp rv rows
  have h1 := hne s hs
  refine ⟨h1, ?_, ?_⟩
  · have hlen : 0 < s.segments.length := List.length_pos.mpr h1
    simpa [segmentPaths] using hlen
  · intro r hgt
    unfold GetRequestSlices
    rw [List.foldl_append]
    simp only [List.foldl_cons, List.foldl_nil]
    rw [scanRow_open tmp rv _ r hord hgt]

theorem GetRequestSlices_no_empty_slice_witness :
    (GetRequestSlices "/tmp" rvPair rowsMixed).map (fun s => (segmentPaths s).length) =
        [2, 1] ∧
      1 ≤ (segmentPaths
        ⟨9000, 9500, [(16, rowSegment "/tmp" rvPair ⟨9000, 9500, "u5", 16⟩)]⟩).length :=
  ⟨by decide,
    (GetRequestSlices_no_empty_slice "/tmp" rvPair rowsMixed
      ⟨9000, 9500, [(16, rowSegment "/tmp" rvPair ⟨9000, 9500, "u5", 16⟩)]⟩
      (by decide)).2.1⟩

/-! ## The row loop: linear scan and last opened slice -/

theorem addToSlice_eq_lastOpened (slices : List TimeSlice) (segment : AudioSegment)
    (hpw : (slices.map (fun s => s.start)).Pairwise (fun x y => x < y))
    (hle : ∀ x ∈ slices.map (fun s => s.start), x ≤ segment.start) :
    addToSlice slices segment = addToLastOpened slices segment := by
  induction slices with
  | nil => rfl
  | cons a rest ih =>
    cases rest with
    | nil =>
      by_cases hm : segment.start = a.start ∧ segment.end_ = a.end_
      · simp [addToSlice, addToLastOpened, hm, TimeSlice.store]
      · simp [addToSlice, addToLastOpened, hm]
    | cons b rest =>
      rw [List.map_cons, List.pairwise_cons] at hpw
      have hab : a.start < b.start := hpw.1 b.start (by simp)
      have hb : b.start ≤ segment.start := hle b.start (by simp)
      have hm : ¬ (segment.start = a.start ∧ segment.end_ = a.end_) := by
        intro h
        omega
      have ih2 := ih hpw.2 (fun x hx => hle x (by
        simp only [List.map_cons, List.mem_cons] at hx ⊢
        exact Or.inr hx))
      simp only [addToSlice, hm, if_false, addToLastOpened]
      rw [← ih2]
      simp only [addToSlice]

theorem scanRow_eq_lastOpened (tmp : String) (rv : RequestVars) (st : ScanState) (r : Row)
    (hord : ScanOrdered st)
    (hle : ∀ x ∈ st.slices.map (fun s => s.start), x ≤ r.met_start) :
    scanRow tmp rv st (some r) = scanRowLastOpened tmp rv st (some r) := by
  have hpost := scanRow_ordered tmp rv st (some r) hord
  by_cases hgt : r.met_start > st.lastStart
  · simp only [scanRow, hgt, if_true, ScanOrdered, addToSlice_starts] at hpost
    simp only [scanRow, scanRowLastOpened, hgt, if_true]
    rw [addToSlice_eq_lastOpened _ _ hpost.1 hpost.2.1]
  · simp only [scanRow, scanRowLastOpened, hgt, if_false]
    rw [addToSlice_eq_lastOpened _ _ hord.1 hle]

theorem foldl_scanRow_eq_lastOpened (tmp : String) (rv : RequestVars) (rows : List Row) :
    ∀ st, ScanOrdered st → RowsSorted rows →
      (∀ x ∈ st.slices.map (fun s => s.start), ∀ r ∈ rows, x ≤ r.met_start) →
      (rows.map some).foldl (scanRow tmp rv) st =
        (rows.map some).foldl (scanRowLastOpened tmp rv) st := by
  induction rows with
  | nil => intro st _ _ _; rfl
  | cons r rest ih =>
    intro st hord hs hle
    unfold RowsSorted at hs
    rw [List.pairwise_cons] at hs
    have hstep := scanRow_eq_lastOpened tmp rv st r hord
      (fun x hx => hle x hx r (List.mem_cons_self _ _))
    simp only [List.map_cons, List.foldl_cons]
    rw [← hstep]
    apply ih _ (scanRow_ordered tmp rv st (some r) hord) hs.2
    intro x hx q hq
    by_cases hgt : r.met_start > st.lastStart
    · simp only [scanRow, hgt, if_true, addToSlice_starts, List.map_append, List.map_cons,
        List.map_nil, List.mem_append, List.mem_singleton, NewTimeSlice] at hx
      rcases hx with hx | hx
      · exact hle x hx q (List.mem_cons_of_mem _ hq)
      · rw [hx]
        exact hs.1 q hq
    · simp only [scanRow, hgt, if_false, addToSlice_starts] at hx
      exact hle x hx q (List.mem_cons_of_mem _ hq)

theorem scanRow_eq_lastMatching (tmp : String) (rv : RequestVars) (st : ScanState)
    (row : Option Row) (hord : ScanOrdered st) :
    scanRow tmp rv st row = scanRowLastMatching tmp rv st row := by
  cases row with
  | none => rfl
  | some r =>
    have hpost := scanOrdered_nodup_bounds _ (scanRow_ordered tmp rv st (some r) hord)
    have key : ∀ sl : List TimeSlice, (sl.map TimeSlice.bounds).Nodup →
        addToSlice sl (rowSegment tmp rv r) = addToLastMatching sl (rowSegment tmp rv r) := by
      intro sl hnd
      have hrev : (sl.reverse.map TimeSlice.bounds).Nodup := by
        rw [List.map_reverse]
        exact List.nodup_reverse.mpr hnd
      unfold addToLastMatching
      rw [addToSlice_eq_map _ _ hnd, addToSlice_eq_map _ _ hrev, List.map_reverse,
        List.reverse_reverse]
    by_cases hgt : r.met_start > st.lastStart
    · simp only [scanRow, hgt, if_true, addToSlice_bounds] at hpost
      simp only [scanRow, scanRowLastMatching, hgt, if_true]
      rw [key _ hpost]
    · simp only [scanRow, hgt, if_false, addToSlice_bounds] at hpost
      simp only [scanRow, scanRowLastMatching, hgt, if_false]
      rw [key _ hpost]

theorem foldl_scanRow_eq_lastMatching (tmp : String) (rv : RequestVars)
    (rows : List (Option Row)) :
    ∀ st, ScanOrdered st →
      rows.foldl (scanRow tmp rv) st = rows.foldl (scanRowLastMatching tmp rv) st := by
  induction rows with
  | nil => intro st _; rfl
  | cons row rest ih =>
    intro st hord
    simp only [List.foldl_cons]
    rw [← scanRow_eq_lastMatching tmp rv st row hord]
    exact ih _ (scanRow_ordered tmp rv st row hord)

/-- For rows out of order the variant that looks at the last opened slice only drops a row
that the linear scan stores. -/
theorem GetRequestSlicesLastOpened_unsorted :
    (GetRequestSlices "/tmp" rvPair (rowsUnsorted.map some)).map
        (fun s => (s.start, s.end_, s.segments.map Prod.fst)) =
      [(0, 10, [1, 2]), (5, 20, [1])] ∧
    (GetRequestSlicesLastOpened "/tmp" rvPair (rowsUnsorted.map some)).map
        (fun s => (s.start, s.end_, s.segments.map Prod.fst)) =
      [(0, 10, [1]), (5, 20, [1])] := by
  decide

/-- C16: for rows ordered by start ascending the row loop, which scans the open slices from
the first, returns the same slices as the loop that compares each row only against the
most recently opened slice; and for rows in any order no two open slices have the same
bounds, so that the slice chosen by the scan is the most recently opened matching one. -/
theorem GetRequestSlices_eq_lastOpened (tmp : String) (rv : RequestVars) (rows : List Row)
    (hs : RowsSorted rows) :
    GetRequestSlices tmp rv (rows.map some) =
        GetRequestSlicesLastOpened tmp rv (rows.map some) ∧
      ∀ scanned : List (Option Row),
        ((GetRequestSlices tmp rv scanned).map TimeSlice.bounds).Nodup ∧
          GetRequestSlices tmp rv scanned = GetRequestSlicesLastMatching tmp rv scanned := by
  constructor
  · unfold GetRequestSlices GetRequestSlicesLastOpened
    rw [foldl_scanRow_eq_lastOpened tmp rv rows _ scanOrdered_init hs (by simp)]
  · intro scanned
    constructor
    · exact scanOrdered_nodup_bounds _
        (foldl_scanRow_ordered tmp rv scanned _ scanOrdered_init)
    · unfold GetRequestSlices GetRequestSlicesLastMatching
      rw [foldl_scanRow_eq_lastMatching tmp rv scanned _ scanOrdered_init]

theorem GetRequestSlices_eq_lastOpened_witness :
    GetRequestSlices "/tmp" rvPair (rowsUnaligned.map some) =
        GetRequestSlicesLastOpened "/tmp" rvPair (rowsUnaligned.map some) ∧
      ∀ scanned : List (Option Row),
        ((GetRequestSlices "/tmp" rvPair scanned).map TimeSlice.bounds).Nodup ∧
          GetRequestSlices "/tmp" rvPair scanned =
            GetRequestSlicesLastMatching "/tmp" rvPair scanned :=
  GetRequestSlices_eq_lastOpened "/tmp" rvPair rowsUnaligned (by unfold RowsSorted; decide)

/-! ## Trim arguments: shape and kept spans -/

theorem getSoxTrimArgs_eq_render (i : Int) (rv : RequestVars) (slices : List TimeSlice)
    (hnz : ∀ slice, slices[i.toNat]? = some slice → rv.Start > slice.start →
      wrap64 (rv.Start - slice.start) ≠ 0) :
    getSoxTrimArgs i rv slices = (trimSpec i rv slices).map TrimSpec.render := by
  unfold getSoxTrimArgs trimSpec
  by_cases hi : i < 0
  · simp [hi]
  · simp only [hi, if_false]
    cases hs : slices[i.toNat]? with
    | none => rfl
    | some slice =>
      have hz := hnz slice hs
      simp only [decide_eq_true_eq]
      split_ifs <;> first | rfl | (exfalso; omega)

/-- The trim of a slice inside the list, by the two tests of `getSoxTrimArgs`. -/
theorem trimSpec_code (i : Int) (rv : RequestVars) (slices : List TimeSlice)
    (slice : TimeSlice) (hi0 : 0 ≤ i) (hs : slices[i.toNat]? = some slice) :
    trimSpec i rv slices = some
      (if i = (slices.length : Int) - 1 ∧ slice.end_ > wrap64 (rv.Start + rv.Duration) then
        (if i = 0 ∧ rv.Start > slice.start then
          TrimSpec.offsetFor (wrap64 (rv.Start - slice.start))
            (if rv.Start > slice.start then
              wrap64 (wrap64 (rv.Start + rv.Duration) - rv.Start)
            else wrap64 (wrap64 (rv.Start + rv.Duration) - slice.start))
        else
          TrimSpec.zeroFor
            (if rv.Start > slice.start then
              wrap64 (wrap64 (rv.Start + rv.Duration) - rv.Start)
            else wrap64 (wrap64 (rv.Start + rv.Duration) - slice.start)))
      else if i = 0 ∧ rv.Start > slice.start then
        TrimSpec.offsetOnly (wrap64 (rv.Start - slice.start))
      else TrimSpec.noTrim) := by
  have hneg : ¬ i < 0 := by omega
  unfold trimSpec
  simp only [hneg, if_false, hs, decide_eq_true_eq]
  split_ifs <;> rfl

/-- The trim of a slice inside the list where nothing wraps: start plus duration is a
64-bit integer and the offset and the cap, when emitted, are within the range of exact
rendering. -/
theorem trimSpec_nowrap (i : Int) (rv : RequestVars) (slices : List TimeSlice)
    (slice : TimeSlice) (hi0 : 0 ≤ i) (hs : slices[i.toNat]? = some slice)
    (hsum : IsInt64 (rv.Start + rv.Duration))
    (hoff : i = 0 → rv.Start > slice.start → RendersExactly (rv.Start - slice.start))
    (hcap : i = (slices.length : Int) - 1 → slice.end_ > rv.Start + rv.Duration →
      RendersExactly (rv.Start + rv.Duration - max rv.Start slice.start)) :
    trimSpec i rv slices = some
      (if i = (slices.length : Int) - 1 ∧ slice.end_ > rv.Start + rv.Duration then
        (if i = 0 ∧ rv.Start > slice.start then
          TrimSpec.offsetFor (rv.Start - slice.start)
            (rv.Start + rv.Duration - max rv.Start slice.start)
        else TrimSpec.zeroFor (rv.Start + rv.Duration - max rv.Start slice.start))
      else if i = 0 ∧ rv.Start > slice.start then TrimSpec.offsetOnly (rv.Start - slice.start)
      else TrimSpec.noTrim) := by
  have hw1 : wrap64 (rv.Start + rv.Duration) = rv.Start + rv.Duration := wrap64_eq _ hsum
  rw [trimSpec_code i rv slices slice hi0 hs, hw1]
  by_cases hlast : i = (slices.length : Int) - 1 ∧ slice.end_ > rv.Start + rv.Duration
  · have hc := hcap hlast.1 hlast.2
    rw [if_pos hlast, if_pos hlast]
    by_cases hgt : rv.Start > slice.start
    · have hmax : max rv.Start slice.start = rv.Start := max_eq_left (le_of_lt hgt)
      rw [hmax] at hc ⊢
      have hw3 := wrap64_eq _ (isInt64_of_rendersExactly _ hc)
      rw [if_pos hgt, hw3]
      by_cases h0 : i = 0
      · have hw2 := wrap64_eq _ (isInt64_of_rendersExactly _ (hoff h0 hgt))
        rw [hw2]
      · have hnf : ¬ (i = 0 ∧ rv.Start > slice.start) := fun h => h0 h.1
        rw [if_neg hnf, if_neg hnf]
    · have hmax : max rv.Start slice.start = slice.start := max_eq_right (by omega)
      rw [hmax] at hc ⊢
      have hw3 := wrap64_eq _ (isInt64_of_rendersExactly _ hc)
      have hnf : ¬ (i = 0 ∧ rv.Start > slice.start) := fun h => hgt h.2
      rw [if_neg hgt, hw3, if_neg hnf, if_neg hnf]
  · rw [if_neg hlast, if_neg hlast]
    by_cases hfirst : i = 0 ∧ rv.Start > slice.start
    · have hw2 := wrap64_eq _ (isInt64_of_rendersExactly _ (hoff hfirst.1 hfirst.2))
      rw [if_pos hfirst, if_pos hfirst, hw2]
    · rw [if_neg hfirst, if_neg hfirst]

/-- C15: inside a non-empty slice list of 64-bit values the per-slice trim is empty, or
"trim" with an offset, or "trim" with an offset and a duration. A duration cap is appended
to the leading offset when this call emitted one, and is otherwise emitted as "trim", "0"
and the duration; a duration never stands alone. The two tests and the two numbers are
those of the code, in 64-bit arithmetic. -/
theorem getSoxTrimArgs_shape (i : Int) (rv : RequestVars) (slices : List TimeSlice)
    (slice : TimeSlice) (hi0 : 0 ≤ i) (hs : slices[i.toNat]? = some slice)
    (hS : IsInt64 rv.Start) (hst : IsInt64 slice.start) :
    ∃ args, getSoxTrimArgs i rv slices = some args ∧
      (args = [] ∨ (∃ off, args = ["trim", off]) ∨ ∃ off dur, args = ["trim", off, dur]) ∧
      ((i = 0 ∧ rv.Start > slice.start) →
        (i = (slices.length : Int) - 1 ∧ slice.end_ > wrap64 (rv.Start + rv.Duration)) →
        args = ["trim", formatSeconds (wrap64 (rv.Start - slice.start)),
          formatSeconds (capDuration rv slice)]) ∧
      (¬ (i = 0 ∧ rv.Start > slice.start) →
        (i = (slices.length : Int) - 1 ∧ slice.end_ > wrap64 (rv.Start + rv.Duration)) →
        args = ["trim", "0", formatSeconds (capDuration rv slice)]) ∧
      ((i = 0 ∧ rv.Start > slice.start) →
        ¬ (i = (slices.length : Int) - 1 ∧ slice.end_ > wrap64 (rv.Start + rv.Duration)) →
        args = ["trim", formatSeconds (wrap64 (rv.Start - slice.start))]) ∧
      (¬ (i = 0 ∧ rv.Start > slice.start) →
        ¬ (i = (slices.length : Int) - 1 ∧ slice.end_ > wrap64 (rv.Start + rv.Duration)) →
        args = []) := by
  have hnz : ∀ sl, slices[i.toNat]? = some sl → rv.Start > sl.start →
      wrap64 (rv.Start - sl.start) ≠ 0 := by
    intro sl hsl hgt
    rw [hs] at hsl
    have he := Option.some.inj hsl
    subst he
    exact wrap64_sub_ne_zero _ _ hS hst hgt
  rw [getSoxTrimArgs_eq_render i rv slices hnz, trimSpec_code i rv slices slice hi0 hs]
  by_cases hfirst : i = 0 ∧ rv.Start > slice.start
  · by_cases hlast : i = (slices.length : Int) - 1 ∧
        slice.end_ > wrap64 (rv.Start + rv.Duration)
    · rw [if_pos hlast, if_pos hfirst]
      exact ⟨_, rfl, Or.inr (Or.inr ⟨_, _, rfl⟩), fun _ _ => rfl,
        fun h => absurd hfirst h, fun _ h => absurd hlast h, fun h => absurd hfirst h⟩
    · rw [if_neg hlast, if_pos hfirst]
      exact ⟨_, rfl, Or.inr (Or.inl ⟨_, rfl⟩), fun _ h => absurd h hlast,
        fun h => absurd hfirst h, fun _ _ => rfl, fun h => absurd hfirst h⟩
  · by_cases hlast : i = (slices.length : Int) - 1 ∧
        slice.end_ > wrap64 (rv.Start + rv.Duration)
    · rw [if_pos hlast, if_neg hfirst]
      exact ⟨_, rfl, Or.inr (Or.inr ⟨_, _, rfl⟩), fun h => absurd h hfirst,
        fun _ _ => rfl, fun h => absurd h hfirst, fun _ h => absurd hlast h⟩
    · rw [if_neg hlast, if_neg hfirst]
      exact ⟨_, rfl, Or.inl rfl, fun h => absurd h hfirst, fun _ h => absurd h hlast,
        fun h => absurd h hfirst, fun _ _ => rfl⟩

theorem getSoxTrimArgs_shape_witness :
    ∃ args, getSoxTrimArgs 1 rvPair slicesPair = some args ∧
      args = ["trim", "0", "3.0000"] :=
  match getSoxTrimArgs_shape 1 rvPair slicesPair (NewTimeSlice 3000 7000) (by decide)
    (by decide) (by unfold IsInt64; decide) (by unfold IsInt64; decide) with
  | ⟨args, h, _, _, h2, _, _⟩ => ⟨args, h, (h2 (by decide) (by decide)).trans (by decide)⟩

/-- Among slices in ascending order without overlap that all meet the window, every slice
but the first starts after the request start, and every slice but the last ends before
the request end. -/
theorem window_neighbours (rv : RequestVars) (slices : List TimeSlice)
    (hasc : slices.Chain' (fun a b => a.end_ ≤ b.start))
    (hint : ∀ s ∈ slices, s.end_ > rv.Start ∧ s.start < rv.Start + rv.Duration)
    (i : Nat) (slice : TimeSlice) (hs : slices[i]? = some slice) :
    (0 < i → slice.start > rv.Start) ∧
      (i + 1 < slices.length → slice.end_ < rv.Start + rv.Duration) := by
  have hi : i < slices.length := (List.getElem?_eq_some.mp hs).1
  have hget : slices[i] = slice := (List.getElem?_eq_some.mp hs).2
  rw [List.chain'_iff_get] at hasc
  constructor
  · intro hpos
    have h1 := hasc (i - 1) (by omega)
    have h2 := (hint (slices.get ⟨i - 1, by omega⟩) (List.get_mem _ _ _)).1
    have hidx : i - 1 + 1 = i := by omega
    simp only [List.get_eq_getElem, hidx, hget] at h1 h2
    omega
  · intro hnext
    have h1 := hasc i (by omega)
    have h2 := (hint (slices.get ⟨i + 1, by omega⟩) (List.get_mem _ _ _)).2
    simp only [List.get_eq_getElem, hget] at h1 h2
    omega

theorem spanOfArgs_noTrim (slice : TimeSlice) :
    spanOfArgs slice TrimSpec.noTrim.render = some (10 * slice.start, 10 * slice.end_) :=
  rfl

theorem spanOfArgs_offsetOnly (slice : TimeSlice) (o : Int) (ho : RendersExactly o) :
    spanOfArgs slice (TrimSpec.offsetOnly o).render =
      some (10 * (slice.start + o), 10 * slice.end_) := by
  have e : 10 * slice.start + 10 * o = 10 * (slice.start + o) := by ring
  simp only [spanOfArgs, TrimSpec.render, if_true, parseTicks_formatSeconds o ho,
    Option.map_some', e]

theorem spanOfArgs_offsetFor (slice : TimeSlice) (o d : Int) (ho : RendersExactly o)
    (hd : RendersExactly d) :
    spanOfArgs slice (TrimSpec.offsetFor o d).render =
      some (10 * (slice.start + o), 10 * (slice.start + o + d)) := by
  have e1 : 10 * slice.start + 10 * o = 10 * (slice.start + o) := by ring
  have e2 : 10 * (slice.start + o) + 10 * d = 10 * (slice.start + o + d) := by ring
  simp only [spanOfArgs, TrimSpec.render, if_true, parseTicks_formatSeconds o ho,
    parseTicks_formatSeconds d hd, e1, e2]

theorem parseTicks_zero : parseTicks "0" = some 0 := by decide

theorem spanOfArgs_zeroFor (slice : TimeSlice) (d : Int) (hd : RendersExactly d) :
    spanOfArgs slice (TrimSpec.zeroFor d).render =
      some (10 * slice.start, 10 * (slice.start + d)) := by
  have e2 : 10 * slice.start + 0 + 10 * d = 10 * (slice.start + d) := by ring
  simp only [spanOfArgs, TrimSpec.render, if_true, parseTicks_zero,
    parseTicks_formatSeconds d hd, add_zero]
  rw [← e2, add_zero]

/-- Under the conditions of `window_neighbours`, where start plus duration is a 64-bit
integer and the duration and the offset into the first slice are in the range of exact
rendering, the arguments returned for every slice keep its intersection with the
window. -/
theorem keptSpan_eq_clip (rv : RequestVars) (slices : List TimeSlice)
    (hd : 0 < rv.Duration)
    (hasc : slices.Chain' (fun a b => a.end_ ≤ b.start))
    (hint : ∀ s ∈ slices, s.end_ > rv.Start ∧ s.start < rv.Start + rv.Duration)
    (hsum : IsInt64 (rv.Start + rv.Duration)) (hdur : RendersExactly rv.Duration)
    (hoff : ∀ s0 ∈ slices.head?, rv.Start > s0.start →
      RendersExactly (rv.Start - s0.start))
    (i : Nat) (slice : TimeSlice) (hs : slices[i]? = some slice) :
    ∃ args, getSoxTrimArgs (i : Int) rv slices = some args ∧
      spanOfArgs slice args = some (clipToWindow rv slice) ∧
      keptSpan (i : Int) rv slices = some (clipToWindow rv slice) := by
  have hi : i < slices.length := (List.getElem?_eq_some.mp hs).1
  obtain ⟨hF1, hF2⟩ := window_neighbours rv slices hasc hint i slice hs
  have hmem : slice ∈ slices := List.getElem?_mem hs
  have hsl := hint slice hmem
  have hs2 : slices[(i : Int).toNat]? = some slice := by simpa using hs
  have hoff2 : (i : Int) = 0 → rv.Start > slice.start →
      RendersExactly (rv.Start - slice.start) := by
    intro h0 hgt
    have hi0 : i = 0 := by omega
    subst hi0
    refine hoff slice ?_ hgt
    rw [List.head?_eq_getElem?]
    exact hs
  have hcap2 : RendersExactly (rv.Start + rv.Duration - max rv.Start slice.start) := by
    unfold RendersExactly at hdur ⊢
    omega
  have hspec := trimSpec_nowrap (i : Int) rv slices slice (by omega) hs2 hsum hoff2
    (fun _ _ => hcap2)
  have hnz : ∀ sl, slices[(i : Int).toNat]? = some sl → rv.Start > sl.start →
      wrap64 (rv.Start - sl.start) ≠ 0 := by
    intro sl hsl2 hgt
    rw [hs2] at hsl2
    have he := Option.some.inj hsl2
    subst he
    have hi0 : i = 0 := by
      by_contra hne
      have := hF1 (by omega)
      omega
    have hr := hoff2 (by omega) hgt
    rw [wrap64_eq _ (isInt64_of_rendersExactly _ hr)]
    omega
  have hargs := getSoxTrimArgs_eq_render (i : Int) rv slices hnz
  rw [hspec] at hargs
  have hspan : spanOfArgs slice
      (if (i : Int) = (slices.length : Int) - 1 ∧ slice.end_ > rv.Start + rv.Duration then
        (if (i : Int) = 0 ∧ rv.Start > slice.start then
          TrimSpec.offsetFor (rv.Start - slice.start)
            (rv.Start + rv.Duration - max rv.Start slice.start)
        else TrimSpec.zeroFor (rv.Start + rv.Duration - max rv.Start slice.start))
      else if (i : Int) = 0 ∧ rv.Start > slice.start then
        TrimSpec.offsetOnly (rv.Start - slice.start)
      else TrimSpec.noTrim).render = some (clipToWindow rv slice) := by
    by_cases hlast : (i : Int) = (slices.length : Int) - 1 ∧
        slice.end_ > rv.Start + rv.Duration
    · by_cases hfirst : (i : Int) = 0 ∧ rv.Start > slice.start
      · rw [if_pos hlast, if_pos hfirst,
          spanOfArgs_offsetFor _ _ _ (hoff2 hfirst.1 hfirst.2) hcap2]
        simp only [clipToWindow, Option.some.injEq, Prod.mk.injEq]
        omega
      · rw [if_pos hlast, if_neg hfirst, spanOfArgs_zeroFor _ _ hcap2]
        simp only [clipToWindow, Option.some.injEq, Prod.mk.injEq]
        omega
    · by_cases hfirst : (i : Int) = 0 ∧ rv.Start > slice.start
      · rw [if_neg hlast, if_pos hfirst,
          spanOfArgs_offsetOnly _ _ (hoff2 hfirst.1 hfirst.2)]
        simp only [clipToWindow, Option.some.injEq, Prod.mk.injEq]
        omega
      · rw [if_neg hlast, if_neg hfirst, spanOfArgs_noTrim]
        simp only [clipToWindow, Option.some.injEq, Prod.mk.injEq]
        omega
  refine ⟨_, hargs, hspan, ?_⟩
  simp only [keptSpan, hs2, hargs, Option.map_some', hspan]

theorem keptSpans_eq_clip (rv : RequestVars) (slices : List TimeSlice)
    (hd : 0 < rv.Duration)
    (hasc : slices.Chain' (fun a b => a.end_ ≤ b.start))
    (hint : ∀ s ∈ slices, s.end_ > rv.Start ∧ s.start < rv.Start + rv.Duration)
    (hsum : IsInt64 (rv.Start + rv.Duration)) (hdur : RendersExactly rv.Duration)
    (hoff : ∀ s0 ∈ slices.head?, rv.Start > s0.start →
      RendersExactly (rv.Start - s0.start)) :
    keptSpans rv slices = (slices.map (clipToWindow rv)).map some := by
  apply List.ext_getElem
  · simp [keptSpans]
  · intro i h1 h2
    have hi : i < slices.length := by simpa [keptSpans] using h1
    obtain ⟨args, -, -, hk⟩ := keptSpan_eq_clip rv slices hd hasc hint hsum hdur hoff i
      slices[i] (List.getElem?_eq_getElem hi)
    simp [keptSpans, hk]

theorem spansTile_sum (spans : List (Int × Int)) :
    ∀ a b, SpansTile spans a b → (spans.map (fun p => p.2 - p.1)).sum = b - a := by
  induction spans with
  | nil =>
    intro a b h
    simp only [SpansTile] at h
    simp [h]
  | cons p rest ih =>
    intro a b h
    simp only [SpansTile] at h
    have h2 := ih p.2 b h.2
    simp only [List.map_cons, List.sum_cons, h2]
    omega

/-- Contiguous slices that all meet the window: their intersections with the window follow
one another from the clipped start of the first slice to the request end. -/
theorem clip_tiles (rv : RequestVars) (rest : List TimeSlice) :
    ∀ s : TimeSlice, (s :: rest).Chain' (fun a b => a.end_ = b.start) →
      (∀ x ∈ s :: rest, x.end_ > rv.Start ∧ x.start < rv.Start + rv.Duration) →
      (∀ l ∈ (s :: rest).getLast?, l.end_ ≥ rv.Start + rv.Duration) →
      SpansTile ((s :: rest).map (clipToWindow rv)) (10 * max s.start rv.Start)
        (10 * (rv.Start + rv.Duration)) := by
  induction rest with
  | nil =>
    intro s _ _ hlast
    have h := hlast s (by simp)
    simp only [List.map_cons, List.map_nil, SpansTile, clipToWindow, true_and]
    omega
  | cons t rest ih =>
    intro s hch hint hlast
    rw [List.chain'_cons] at hch
    have hs := hint s (List.mem_cons_self _ _)
    have ht := hint t (List.mem_cons_of_mem _ (List.mem_cons_self _ _))
    have ih2 := ih t hch.2 (fun x hx => hint x (List.mem_cons_of_mem _ hx))
      (fun l hl => hlast l (by simpa using hl))
    have hmid : 10 * min s.end_ (rv.Start + rv.Duration) = 10 * max t.start rv.Start := by
      have := hch.1
      omega
    simp only [List.map_cons, SpansTile, clipToWindow, true_and] at ih2 ⊢
    rw [hmid]
    exact ⟨rfl, ih2⟩

theorem keptSpans_tile (rv : RequestVars) (slices : List TimeSlice)
    (hd : 0 < rv.Duration) (hne : slices ≠ [])
    (hcont : slices.Chain' (fun a b => a.end_ = b.start))
    (h0 : ∀ s0 ∈ slices.head?, s0.start ≤ rv.Start)
    (hl : ∀ l ∈ slices.getLast?, l.end_ ≥ rv.Start + rv.Duration)
    (hint : ∀ s ∈ slices, s.end_ > rv.Start ∧ s.start < rv.Start + rv.Duration)
    (hsum : IsInt64 (rv.Start + rv.Duration)) (hdur : RendersExactly rv.Duration)
    (hoff : ∀ s0 ∈ slices.head?, rv.Start > s0.start →
      RendersExactly (rv.Start - s0.start)) :
    keptSpans rv slices = (slices.map (clipToWindow rv)).map some ∧
      SpansTile (slices.map (clipToWindow rv)) (10 * rv.Start)
        (10 * (rv.Start + rv.Duration)) := by
  have hasc : slices.Chain' (fun a b => a.end_ ≤ b.start) :=
    hcont.imp (fun _ _ h => le_of_eq h)
  refine ⟨keptSpans_eq_clip rv slices hd hasc hint hsum hdur hoff, ?_⟩
  cases slices with
  | nil => exact absurd rfl hne
  | cons s rest =>
    have hs := h0 s (by simp)
    have hmax : max s.start rv.Start = rv.Start := max_eq_right hs
    have h := clip_tiles rv rest s hcont hint hl
    rw [hmax] at h
    exact h

theorem spanLength_sum (spans : List (Int × Int)) :
    ((spans.map some).map spanLength).sum = (spans.map (fun p => p.2 - p.1)).sum := by
  induction spans with
  | nil => rfl
  | cons p rest ih =>
    simp only [List.map_cons, List.sum_cons, ih, spanLength]

/-- C17, as stated, fails: at a request start of 600000000000003 ms the offset is rendered
as "600000000000.0031", so the span kept from the slice begins a ten-thousandth of a second
after the window; and where start plus duration exceeds the greatest 64-bit integer the
sum wraps and the span kept runs for the whole duration, past the end of the slice. -/
theorem getSoxTrimArgs_keeps_window_counterexample :
    (0 < rvLarge.Duration ∧ sliceLong.start < sliceLong.end_ ∧
      sliceLong.end_ > rvLarge.Start ∧
      sliceLong.start < rvLarge.Start + rvLarge.Duration ∧
      getSoxTrimArgs 0 rvLarge [sliceLong] =
        some ["trim", "600000000000.0031", "0.0010"] ∧
      keptSpan 0 rvLarge [sliceLong] = some (6000000000000031, 6000000000000041) ∧
      clipToWindow rvLarge sliceLong = (6000000000000030, 6000000000000040)) ∧
    (0 < rvOverflow.Duration ∧ sliceGreatest.start < sliceGreatest.end_ ∧
      sliceGreatest.end_ > rvOverflow.Start ∧
      sliceGreatest.start < rvOverflow.Start + rvOverflow.Duration ∧
      getSoxTrimArgs 0 rvOverflow [sliceGreatest] = some ["trim", "0.0050", "0.0100"] ∧
      keptSpan 0 rvOverflow [sliceGreatest] =
        some (92233720368547758020, 92233720368547758120) ∧
      clipToWindow rvOverflow sliceGreatest =
        (92233720368547758020, 92233720368547758070)) := by
  set_option maxRecDepth 8000 in decide

/-- C17, amended: for a request with positive duration, whose start plus duration is a
64-bit integer and whose duration is of magnitude below 549755813888003 ms, and a non-empty
list of slices with start before end, in ascending order without overlap, each meeting the
window, where the offset of the request start into the first slice, when positive, is below
549755813888003 ms as well: the arguments that `getSoxTrimArgs` returns for every slice,
read as sox reads them (from the slice start plus the offset, for the duration when there
is one, else to the slice end), keep the intersection of the slice with the window; and
when the slices are contiguous and cover the window, the lengths of the kept spans sum to
the requested duration (all spans in ten-thousandths of a second). -/
theorem getSoxTrimArgs_keeps_window (rv : RequestVars) (slices : List TimeSlice)
    (hd : 0 < rv.Duration) (hne : slices ≠ [])
    (_hpos : ∀ s ∈ slices, s.start < s.end_)
    (hasc : slices.Chain' (fun a b => a.end_ ≤ b.start))
    (hint : ∀ s ∈ slices, s.end_ > rv.Start ∧ s.start < rv.Start + rv.Duration)
    (hsum : IsInt64 (rv.Start + rv.Duration)) (hdur : RendersExactly rv.Duration)
    (hoff : ∀ s0 ∈ slices.head?, rv.Start > s0.start →
      RendersExactly (rv.Start - s0.start)) :
    (∀ (i : Nat) (slice : TimeSlice), slices[i]? = some slice →
      ∃ args, getSoxTrimArgs (i : Int) rv slices = some args ∧
        spanOfArgs slice args =
          some (10 * max slice.start rv.Start,
            10 * min slice.end_ (rv.Start + rv.Duration))) ∧
      (slices.Chain' (fun a b => a.end_ = b.start) →
        (∀ s0 ∈ slices.head?, s0.start ≤ rv.Start) →
        (∀ l ∈ slices.getLast?, l.end_ ≥ rv.Start + rv.Duration) →
        ((keptSpans rv slices).map spanLength).sum = 10 * rv.Duration) := by
  constructor
  · intro i slice hs
    obtain ⟨args, h1, h2, -⟩ := keptSpan_eq_clip rv slices hd hasc hint hsum hdur hoff i
      slice hs
    exact ⟨args, h1, h2⟩
  · intro hcont h0 hl
    obtain ⟨hk, htile⟩ := keptSpans_tile rv slices hd hne hcont h0 hl hint hsum hdur hoff
    rw [hk, spanLength_sum, spansTile_sum _ _ _ htile]
    omega

theorem getSoxTrimArgs_keeps_window_witness :
    keptSpans rvPair slicesCover =
        [some (10000, 30000), some (30000, 50000), some (50000, 60000)] ∧
      ((keptSpans rvPair slicesCover).map spanLength).sum = 10 * rvPair.Duration :=
  ⟨by set_option maxRecDepth 8000 in decide,
    (getSoxTrimArgs_keeps_window rvPair slicesCover (by decide) (by decide) (by decide)
      (by simp [slicesCover, NewTimeSlice]) (by decide) (by unfold IsInt64; decide)
      (by unfold RendersExactly; decide)
      (fun s0 h _ => by
        have e : s0 = NewTimeSlice 0 3000 := by
          simpa [slicesCover] using h.symm
        subst e
        unfold RendersExactly
        decide)).2
      (by simp [slicesCover, NewTimeSlice]) (by decide) (by decide)⟩

/-- C18, as stated, fails: for a duration of 600000000000003 ms the bulk trim renders
"600000000000.0031", so the interval it selects on a covering slice ends a ten-thousandth
of a second after the request end (and so does the span kept by the per-slice trim). -/
theorem soxBulkTrimArgs_selects_window_counterexample :
    0 < rvLongDuration.Duration ∧ sliceLong.start ≤ rvLongDuration.Start ∧
      sliceLong.end_ ≥ rvLongDuration.Start + rvLongDuration.Duration ∧
      sliceLong.end_ > rvLongDuration.Start ∧
      soxBulkTrimArgs rvLongDuration [sliceLong] =
        some ["trim", "0.0000", "600000000000.0031"] ∧
      spanOfArgs sliceLong ["trim", "0.0000", "600000000000.0031"] =
        some (0, 6000000000000031) ∧
      getSoxTrimArgs 0 rvLongDuration [sliceLong] =
        some ["trim", "0", "600000000000.0031"] ∧
      spanOfArgs sliceLong ["trim", "0", "600000000000.0031"] =
        some (0, 6000000000000031) ∧
      (10 * rvLongDuration.Start, 10 * (rvLongDuration.Start + rvLongDuration.Duration)) =
        (0, 6000000000000030) := by
  set_option maxRecDepth 8000 in decide

/-- C18, amended: for a request with positive duration of magnitude below 549755813888003
ms, whose start is a 64-bit integer, and a non-empty list of contiguous slices that cover
the window, each meeting it, the last with a 64-bit end, and with the request start less
than 549755813888003 ms into the first slice: the interval selected by the arguments
`soxBulkTrimArgs` returns, read on the concatenation of the slices (from the start of the
first slice plus the offset, for the duration), is the request window, and the spans kept
by the arguments `getSoxTrimArgs` returns for each slice follow one another from the
request start to the request end (all in ten-thousandths of a second). -/
theorem soxBulkTrimArgs_selects_window (rv : RequestVars) (slices : List TimeSlice)
    (hd : 0 < rv.Duration) (hne : slices ≠ [])
    (hcont : slices.Chain' (fun a b => a.end_ = b.start))
    (h0 : ∀ s0 ∈ slices.head?, s0.start ≤ rv.Start)
    (hl : ∀ l ∈ slices.getLast?, l.end_ ≥ rv.Start + rv.Duration)
    (hint : ∀ s ∈ slices, s.end_ > rv.Start ∧ s.start < rv.Start + rv.Duration)
    (hS : IsInt64 rv.Start) (hE : ∀ l ∈ slices.getLast?, IsInt64 l.end_)
    (hdur : RendersExactly rv.Duration)
    (hoff : ∀ s0 ∈ slices.head?, RendersExactly (rv.Start - s0.start)) :
    (∃ bulk s0, soxBulkTrimArgs rv slices = some bulk ∧ slices[0]? = some s0 ∧
        spanOfArgs s0 bulk = some (10 * rv.Start, 10 * (rv.Start + rv.Duration))) ∧
      ∃ spans : List (Int × Int), spans.length = slices.length ∧
        (∀ (i : Nat) (slice : TimeSlice), slices[i]? = some slice →
          ∃ args, getSoxTrimArgs (i : Int) rv slices = some args ∧
            spanOfArgs slice args = spans[i]?) ∧
        SpansTile spans (10 * rv.Start) (10 * (rv.Start + rv.Duration)) := by
  have hsum : IsInt64 (rv.Start + rv.Duration) := by
    obtain ⟨l, hlast⟩ : ∃ l, slices.getLast? = some l := by
      cases hg : slices.getLast? with
      | none => exact absurd (List.getLast?_eq_none_iff.mp hg) hne
      | some l => exact ⟨l, rfl⟩
    have h1 := hl l hlast
    have h2 := hE l hlast
    unfold IsInt64 at hS h2 ⊢
    omega
  have hoff2 : ∀ s0 ∈ slices.head?, rv.Start > s0.start →
      RendersExactly (rv.Start - s0.start) := fun s0 h _ => hoff s0 h
  have hasc : slices.Chain' (fun a b => a.end_ ≤ b.start) :=
    hcont.imp (fun _ _ h => le_of_eq h)
  obtain ⟨-, htile⟩ := keptSpans_tile rv slices hd hne hcont h0 hl hint hsum hdur hoff2
  refine ⟨?_, slices.map (clipToWindow rv), by simp, ?_, htile⟩
  · cases slices with
    | nil => exact absurd rfl hne
    | cons s rest =>
      have hs := h0 s (by simp)
      have ho := hoff s (by simp)
      have hz : RendersExactly 0 := by unfold RendersExactly; decide
      refine ⟨_, s, soxBulkTrimArgs_cons rv s rest, by simp, ?_⟩
      by_cases hgt : rv.Start > s.start
      · rw [if_pos hgt, wrap64_eq _ (isInt64_of_rendersExactly _ ho)]
        have h := spanOfArgs_offsetFor s _ _ ho hdur
        simp only [TrimSpec.render] at h
        rw [h]
        simp only [Option.some.injEq, Prod.mk.injEq]
        omega
      · rw [if_neg hgt]
        have h := spanOfArgs_offsetFor s _ _ hz hdur
        simp only [TrimSpec.render] at h
        rw [h]
        simp only [Option.some.injEq, Prod.mk.injEq]
        omega
  · intro i slice hs
    obtain ⟨args, h1, h2, -⟩ := keptSpan_eq_clip rv slices hd hasc hint hsum hdur hoff2 i
      slice hs
    refine ⟨args, h1, ?_⟩
    rw [h2, List.getElem?_map, hs]
    rfl

theorem soxBulkTrimArgs_selects_window_witness :
    soxBulkTrimArgs rvPair slicesCover = some ["trim", "1.0000", "5.0000"] ∧
      keptSpans rvPair slicesCover =
        [some (10000, 30000), some (30000, 50000), some (50000, 60000)] ∧
      ((∃ bulk s0, soxBulkTrimArgs rvPair slicesCover = some bulk ∧
          slicesCover[0]? = some s0 ∧ spanOfArgs s0 bulk = some (10000, 60000)) ∧
        ∃ spans : List (Int × Int), spans.length = slicesCover.length ∧
          (∀ (i : Nat) (slice : TimeSlice), slicesCover[i]? = some slice →
            ∃ args, getSoxTrimArgs (i : Int) rvPair slicesCover = some args ∧
              spanOfArgs slice args = spans[i]?) ∧
          SpansTile spans 10000 60000) :=
  ⟨by set_option maxRecDepth 8000 in decide, by set_option maxRecDepth 8000 in decide,
    soxBulkTrimArgs_selects_window rvPair slicesCover (by decide) (by decide)
      (by simp [slicesCover, NewTimeSlice]) (by decide) (by decide) (by decide)
      (by unfold IsInt64; decide)
      (fun l h => by
        have e : l = NewTimeSlice 5000 7000 := by
          simpa [slicesCover] using h.symm
        subst e
        unfold IsInt64
        decide)
      (by unfold RendersExactly; decide)
      (fun s0 h => by
        have e : s0 = NewTimeSlice 0 3000 := by
          simpa [slicesCover] using h.symm
        subst e
        unfold RendersExactly
        decide)⟩

/-! ## Assembly: the merge flag on the slices of the slice builder -/

end Audio
